import Mathlib

/-!
# QRaken: a verification development over `source/main.c`

The C translation unit is embedded function by function.  Machine integers are
natural numbers reduced modulo the width of their C type (`size_t` is 32 bits on
the ARM11 of the 3DS, `u64` is 64 bits), memory blocks are a size together with
a map from offsets to bytes, loops that the C code may fail to leave carry fuel,
and calls into the platform (allocator, libcurl, filesystem, AM service, kernel
threads) are answered by an explicit environment record.
-/

namespace QRaken

/-! ## Machine model -/

/-- Number of values of `size_t` (32-bit ARM11 target). -/
def SIZE_MOD : Nat := 2 ^ 32

/-- Number of values of `u64`. -/
def U64_MOD : Nat := 2 ^ 64

/-- Ways in which a C function fails to return. -/
inductive Stuck where
  /-- the fuel given to a loop ran out -/
  | outOfFuel
  /-- undefined behaviour: a write outside a block, or a NULL `FILE*` handed to stdio -/
  | undefinedBehaviour
  deriving DecidableEq, Repr

/-- An allocated heap block: its size in bytes and its contents by offset. -/
structure Block where
  size : Nat
  bytes : Nat → Nat

/-- Answers of the allocator during one call of `handle_data`: whether `malloc`
and `realloc` succeed, and what uninitialised memory contains. -/
structure Heap where
  malloc_ok : Bool
  realloc_ok : Bool
  junk : Nat → Nat

/-- C `malloc(n)`. -/
def malloc (h : Heap) (n : Nat) : Option Block :=
  if h.malloc_ok then some { size := n, bytes := h.junk } else none

/-- C `realloc(old, n)`: `realloc(NULL, n)` is `malloc(n)`; otherwise the old
contents are kept up to the old size. -/
def realloc (h : Heap) (old : Option Block) (n : Nat) : Option Block :=
  if h.realloc_ok then
    match old with
    | none => some { size := n, bytes := h.junk }
    | some b => some { size := n, bytes := fun i => if i < b.size then b.bytes i else h.junk i }
  else none

/-- C `memcpy(b + off, src, n)`; writing past the end of the block is undefined. -/
def memcpy (b : Block) (off : Nat) (src : List Nat) (n : Nat) : Option Block :=
  if off + n ≤ b.size then
    some { size := b.size,
           bytes := fun i => if off ≤ i ∧ i < off + n then src.getD (i - off) 0 else b.bytes i }
  else none

/-! ## StreamBuffer and `handle_data` (main.c 336-338, 389-425) -/

/-- The three file-scope variables `result_buf`, `result_sz`, `result_written`. -/
structure StreamBuffer where
  result_buf : Option Block
  result_sz : Nat
  result_written : Nat

/-- The initial values of the three statics (main.c 336-338). -/
def emptyBuffer : StreamBuffer :=
  { result_buf := none, result_sz := 0, result_written := 0 }

/-- The loop `while (result_written + bsz > result_sz) { result_sz <<= 1; need_realloc = true; }`
with `need = result_written + bsz` already reduced to `size_t`. -/
def growLoop : Nat → Nat → Nat → Bool → Option (Nat × Bool)
  | 0, _, _, _ => none
  | fuel + 1, need, sz, need_realloc =>
    if need > sz then growLoop fuel need ((sz * 2) % SIZE_MOD) true
    else some (sz, need_realloc)

/-- Lines 417-424 of `handle_data`: the NULL check, the `memcpy` and the update
of `result_written`. -/
def copyChunk (ptr : List Nat) (bsz : Nat) (s : StreamBuffer) :
    Except Stuck (StreamBuffer × Nat) :=
  match s.result_buf with
  | none => .ok (s, 0)
  | some b =>
    match memcpy b s.result_written ptr bsz with
    | none => .error .undefinedBehaviour
    | some b1 =>
      .ok ({ s with result_buf := some b1,
                    result_written := (s.result_written + bsz) % SIZE_MOD }, bsz)

/-- The write callback `handle_data(ptr, size, nmemb, userdata)`. -/
def handle_data (fuel : Nat) (h : Heap) (ptr : List Nat) (size nmemb : Nat)
    (s : StreamBuffer) : Except Stuck (StreamBuffer × Nat) :=
  let bsz := (size * nmemb) % SIZE_MOD
  let s1 : StreamBuffer :=
    if s.result_sz = 0 ∨ s.result_buf.isNone then
      { s with result_sz := 0x1000, result_buf := malloc h 0x1000 }
    else s
  match growLoop fuel ((s1.result_written + bsz) % SIZE_MOD) s1.result_sz false with
  | none => .error .outOfFuel
  | some (sz, need_realloc) =>
    let s2 : StreamBuffer := { s1 with result_sz := sz }
    if need_realloc then
      match realloc h s2.result_buf sz with
      | none => .ok (s2, 0)
      | some new_buf => copyChunk ptr bsz { s2 with result_buf := some new_buf }
    else copyChunk ptr bsz s2

/-- One delivery to the callback: the bytes at `ptr`, the two size arguments and
the allocator's answers during the call. -/
structure Chunk where
  ptr : List Nat
  size : Nat
  nmemb : Nat
  heap : Heap

/-- Successive calls of `handle_data`, one per chunk, collecting the values returned. -/
def feed (fuel : Nat) : List Chunk → StreamBuffer → Except Stuck (StreamBuffer × List Nat)
  | [], s => .ok (s, [])
  | c :: cs, s =>
    match handle_data fuel c.heap c.ptr c.size c.nmemb s with
    | .error e => .error e
    | .ok (s1, r) =>
      match feed fuel cs s1 with
      | .error e => .error e
      | .ok (s2, rs) => .ok (s2, r :: rs)

/-- Total number of bytes in a sequence of chunks. -/
def totalLen (cs : List Chunk) : Nat := (cs.map fun c => c.size * c.nmemb).sum

/-- The occupied region `[0, result_written)` of the buffer, as a list of bytes. -/
def region (s : StreamBuffer) : List Nat :=
  match s.result_buf with
  | none => []
  | some b => (List.range s.result_written).map b.bytes

/-- The buffer pointer, when set, points to a block of `result_sz` bytes, and
nothing counts as written while there is no block. -/
def StreamBuffer.WF (s : StreamBuffer) : Prop :=
  match s.result_buf with
  | none => s.result_written = 0
  | some b => b.size = s.result_sz

/-- The capacity is the least `4096 * 2 ^ j` that holds what has been written. -/
def StreamBuffer.Tight (s : StreamBuffer) : Prop :=
  s.result_buf.isSome = true ∧
    ∃ j, s.result_sz = 4096 * 2 ^ j ∧ (j = 0 ∨ 4096 * 2 ^ (j - 1) < s.result_written)

/-- The next call of `handle_data` allocates the initial block. -/
def StreamBuffer.Fresh (s : StreamBuffer) : Prop :=
  s.result_sz = 0 ∨ s.result_buf.isNone = true

/-- Allocator answers used in the examples: every request succeeds. -/
def okHeap : Heap := { malloc_ok := true, realloc_ok := true, junk := fun _ => 0 }

/-- Two deliveries, of 3 and of 5000 bytes. -/
def sampleChunks : List Chunk :=
  [ { ptr := [1, 2, 3], size := 1, nmemb := 3, heap := okHeap },
    { ptr := List.replicate 5000 7, size := 1, nmemb := 5000, heap := okHeap } ]

/-- A buffer of `2 ^ 31` bytes that is full. -/
def fullBuffer : StreamBuffer :=
  { result_buf := some { size := 2 ^ 31, bytes := fun _ => 0 },
    result_sz := 2 ^ 31, result_written := 2 ^ 31 }

/-! ## Frame conversion in `qrHandler` (main.c 157-168) -/

/-- The right-hand side of line 165 before the cast to `u8`; `px` is the `u16`
pixel promoted to `int`. -/
def luminance (px : Nat) : Nat :=
  ((((px >>> 11) &&& 0x1F) <<< 3) + (((px >>> 5) &&& 0x3F) <<< 2) + ((px &&& 0x1F) <<< 3)) / 3

/-- Index read in `camera_buffer` on line 164. -/
def cameraIndex (x y : Nat) : Nat := y * 400 + x

/-- Index written in `image` on line 165. -/
def imageIndex (w x y : Nat) : Nat := y * w + x

/-- The body of the inner loop (lines 164-165): read the `u16` pixel, store the
`u8` gray value. -/
def convertPixel (camera_buffer : Nat → Nat) (w x y : Nat) (image : Nat → Nat) : Nat → Nat :=
  let px := camera_buffer (cameraIndex x y) % 65536
  fun i => if i = imageIndex w x y then luminance px % 256 else image i

/-- The inner loop `for (y = 0; y < h; y++)`, after its first `n` iterations. -/
def convertColumn (camera_buffer : Nat → Nat) (w x : Nat) : Nat → (Nat → Nat) → Nat → Nat
  | 0, image => image
  | n + 1, image => convertPixel camera_buffer w x n (convertColumn camera_buffer w x n image)

/-- The outer loop `for (x = 0; x < w; x++)`, after its first `n` iterations. -/
def convertColumns (camera_buffer : Nat → Nat) (w h : Nat) : Nat → (Nat → Nat) → Nat → Nat
  | 0, image => image
  | n + 1, image =>
    convertColumn camera_buffer w n h (convertColumns camera_buffer w h n image)

/-- Lines 160-167: the whole conversion into the decoder's `w * h` image. -/
def convertFrame (camera_buffer : Nat → Nat) (w h : Nat) (image : Nat → Nat) : Nat → Nat :=
  convertColumns camera_buffer w h w image

/-! ## The copy loop of `installCia` (main.c 491-498) -/

/-- The loop `for (startSize = size; size != 0; size -= toRead)`: the
`(offset, length)` pairs handed to `FSFILE_Read` and `FSFILE_Write`, in order.
`size` is a `u64`, `toRead` a `u32`. -/
def copyLoop : Nat → Nat → Nat → Nat → Option (List (Nat × Nat))
  | 0, _, size, _ => if size = 0 then some [] else none
  | fuel + 1, startSize, size, toRead =>
    if size = 0 then some []
    else
      let toRead1 := if size < toRead then size % 2 ^ 32 else toRead
      let offset := (startSize + U64_MOD - size) % U64_MOD
      match copyLoop fuel startSize ((size + U64_MOD - toRead1) % U64_MOD) toRead1 with
      | none => none
      | some rest => some ((offset, toRead1) :: rest)

/-! ## Result codes and the file-scope state -/

/-- The `R_SUCCEEDED(res)` of libctru's `result.h`, `((res) >= 0)`, on the `s32`
type `Result`. -/
def R_SUCCEEDED (res : Int) : Bool := decide (0 ≤ res)

/-- The `R_FAILED(res)` of libctru's `result.h`, `((res) < 0)`. -/
def R_FAILED (res : Int) : Bool := decide (res < 0)

/-- The file-scope variables written by `download` and `installCia`, together
with the contents of the file `/tmp.cia` when it exists. -/
structure Globals where
  result : Int
  stream : StreamBuffer
  tmp_cia : Option (List Nat)

/-! ## `download` (main.c 340-385) -/

/-- Answers of the platform during one call of `download`: the scratch
allocation, `socInit`, the body chunks libcurl has to deliver with the code the
transfer ends in when every chunk is accepted, and the two stdio calls (a short
`fwrite` leaves only `fwrite_partial` bytes in the file). -/
structure DownloadEnv where
  memalign_ok : Bool
  socInit_result : Int
  chunks : List Chunk
  transfer_code : Nat
  fopen_ok : Bool
  fwrite_complete : Bool
  fwrite_partial : Nat

/-- The `curl_easy_perform` of libcurl as far as the write callback sees it: the
chunks are delivered in order, a callback that returns anything but the chunk
length ends the transfer with `CURLE_WRITE_ERROR` (23), and otherwise the
transfer ends with its own code (`CURLE_OK` is 0). -/
def curl_easy_perform (fuel : Nat) (transfer_code : Nat) :
    List Chunk → StreamBuffer → Except Stuck (StreamBuffer × Nat)
  | [], s => .ok (s, transfer_code)
  | c :: cs, s =>
    match handle_data fuel c.heap c.ptr c.size c.nmemb s with
    | .error e => .error e
    | .ok (s1, r) =>
      if r = c.size * c.nmemb then curl_easy_perform fuel transfer_code cs s1
      else .ok (s1, 23)

/-- The function `download(url)`. -/
def download (fuel : Nat) (env : DownloadEnv) (g : Globals) : Except Stuck Globals :=
  if env.memalign_ok = false then .ok { g with result := -1 }
  else if R_FAILED env.socInit_result = true then .ok { g with result := env.socInit_result }
  else
    match curl_easy_perform fuel env.transfer_code env.chunks g.stream with
    | .error e => .error e
    | .ok (st, cres) =>
      let st1 : StreamBuffer := { st with result_sz := 0 }
      let cleaned : StreamBuffer := { st1 with result_buf := none, result_written := 0 }
      if cres = 0 then
        if env.fopen_ok = true then
          let file :=
            if env.fwrite_complete = true then region st1
            else (region st1).take env.fwrite_partial
          .ok { result := 0, stream := cleaned, tmp_cia := some file }
        else .error .undefinedBehaviour
      else .ok { result := (cres : Int), stream := cleaned, tmp_cia := g.tmp_cia }

/-! ## `deletePrevious` and `installCia` (main.c 429-507) -/

/-- Calls into the FS and AM services, in the order they are issued; reads and
writes carry their offset, their length and the code the service returned. -/
inductive Call where
  | OpenFileDirectly
  | GetCiaFileInfo
  | GetTitleCount
  | GetTitleList
  | DeleteAppTitle (titleid : Nat)
  | GetSize
  | StartCiaInstall
  | Read (offset length : Nat) (res : Int)
  | Write (offset length : Nat) (res : Int)
  | FinishCiaInstall
  | Close
  deriving DecidableEq, Repr

/-- Answers of the FS and AM services during one call of `installCia`. -/
structure InstallEnv where
  open_result : Int
  info_result : Int
  titleID : Nat
  titleCount_result : Int
  titleList_result : Int
  titleIDs : List Nat
  delete_result : Int
  size_result : Int
  size : Nat
  start_result : Int
  read_result : Nat → Int
  write_result : Nat → Int
  finish_result : Int
  close_result : Int

/-- The search loop of `deletePrevious` (lines 445-452): the code of
`AM_DeleteAppTitle` when the title is in the list. -/
def deleteLoop (delete_result : Int) (titleid : Nat) : List Nat → Option Int
  | [] => none
  | t :: ts => if t = titleid then some delete_result else deleteLoop delete_result titleid ts

/-- The function `deletePrevious(titleid)`: the value left in `result` and the calls made. -/
def deletePrevious (env : InstallEnv) (titleid : Nat) : Int × List Call :=
  if R_FAILED env.titleCount_result = true then (env.titleCount_result, [.GetTitleCount])
  else if R_FAILED env.titleList_result = true then
    (env.titleList_result, [.GetTitleCount, .GetTitleList])
  else
    match deleteLoop env.delete_result titleid env.titleIDs with
    | some r => (r, [.GetTitleCount, .GetTitleList, .DeleteAppTitle titleid])
    | none => (env.titleList_result, [.GetTitleCount, .GetTitleList])

/-- The reads and writes of one pass of the copy loop: the codes returned by
`FSFILE_Read` and `FSFILE_Write` are not looked at. -/
def copyCalls (env : InstallEnv) (ops : List (Nat × Nat)) : List Call :=
  ops.flatMap fun op =>
    [Call.Read op.1 op.2 (env.read_result op.1), Call.Write op.1 op.2 (env.write_result op.1)]

/-- The function `installCia(ciaPath)`: the value left in `result` and the calls
made, or `none` when the copy loop is out of fuel. -/
def installCia (fuel : Nat) (env : InstallEnv) : Option (Int × List Call) :=
  if R_FAILED env.open_result = true then some (env.open_result, [.OpenFileDirectly])
  else if R_FAILED env.info_result = true then
    some (env.info_result, [.OpenFileDirectly, .GetCiaFileInfo])
  else
    let dp := deletePrevious env env.titleID
    let pre : List Call := [.OpenFileDirectly, .GetCiaFileInfo] ++ dp.2
    if R_FAILED dp.1 = true then some (dp.1, pre)
    else if R_FAILED env.size_result = true then some (env.size_result, pre ++ [.GetSize])
    else if R_FAILED env.start_result = true then
      some (env.start_result, pre ++ [.GetSize, .StartCiaInstall])
    else
      match copyLoop fuel (env.size % U64_MOD) (env.size % U64_MOD) 0x1000 with
      | none => none
      | some ops =>
        let calls := pre ++ [.GetSize, .StartCiaInstall] ++ copyCalls env ops
        if R_FAILED env.finish_result = true then
          some (env.finish_result, calls ++ [.FinishCiaInstall])
        else some (env.close_result, calls ++ [.FinishCiaInstall, .Close])

/-! ## The decode loop: `qrHandler` and `qrExit` (main.c 124-208) -/

/-- The three texts `data->state` is set to. -/
inductive ScanState where
  | Ready
  | Downloading
  | Installing
  deriving DecidableEq, Repr

/-- The fields of `qr_data` the control flow depends on. -/
structure qr_data where
  finished : Bool
  capturing : Bool
  state : ScanState

/-- What one iteration of `qrHandler` does that is visible from outside. -/
inductive Action where
  | setState (s : ScanState)
  | signalCancel
  | sleep
  | downloadCalled (url : List Nat)
  | installCalled (calls : List Call)
  | removeCalled
  deriving DecidableEq, Repr

/-- The state of the scanning session: `qr_data`, whether the sticky event
`data->cancel` is signalled, whether `data` has been freed, the capture thread
(when one exists, the number of sleeps of the main thread it still needs, once
cancel is signalled, before it stores `finished = true` on line 285), and the
file-scope variables. -/
structure World where
  data : qr_data
  cancel_signaled : Bool
  data_freed : Bool
  worker : Option Nat
  g : Globals

/-- What the rest of the system does while the main thread sleeps in
`svcSleepThread`: `finished` is written by `camThread` only (line 285), after its
loop has seen the cancel event; `uiThread` only reads it. -/
def duringSleep (w : World) : World :=
  match w.worker with
  | none => w
  | some 0 =>
    if w.cancel_signaled = true then
      { w with data := { w.data with finished := true }, worker := none }
    else w
  | some (n + 1) => if w.cancel_signaled = true then { w with worker := some n } else w

/-- The loop `while (!data->finished) svcSleepThread(1000000);` of `qrExit`,
with the number of sleeps it took. -/
def waitFinished : Nat → World → Option (World × Nat)
  | 0, w => if w.data.finished = true then some (w, 0) else none
  | fuel + 1, w =>
    if w.data.finished = true then some (w, 0)
    else
      match waitFinished fuel (duringSleep w) with
      | none => none
      | some (w1, n) => some (w1, n + 1)

/-- The function `qrExit(data)`. -/
def qrExit (fuel : Nat) (w : World) : Except Stuck (World × List Action) :=
  match waitFinished fuel { w with cancel_signaled := true } with
  | none => .error .outOfFuel
  | some (w1, n) =>
    .ok ({ w1 with data := { w1.data with capturing := false }, data_freed := true },
         Action.signalCancel :: List.replicate n Action.sleep)

/-- C `tolower` on a byte, as used by `strlwr`. -/
def tolower (c : Nat) : Nat := if 65 ≤ c ∧ c ≤ 90 then c + 32 else c

/-- The C string that starts at the beginning of `mem`: the bytes before the first NUL. -/
def cString (mem : List Nat) : List Nat := mem.takeWhile fun c => c ≠ 0

/-- The string at `url` after `strlwr(url)`. -/
def strlwr (mem : List Nat) : List Nat := (cString mem).map tolower

/-- C `strstr(haystack, needle)`: the offset of the first occurrence, `none` for NULL. -/
def strstr : List Nat → List Nat → Option Nat
  | [], needle => if needle.isPrefixOf [] = true then some 0 else none
  | h :: hs, needle =>
    if needle.isPrefixOf (h :: hs) = true then some 0
    else (strstr hs needle).map fun i => i + 1

/-- The string literal `".cia"`. -/
def dotCia : List Nat := [46, 99, 105, 97]

/-- The test of line 179, `strstr(strlwr(url), ".cia") != NULL`, on the
`payload_len` bytes copied into `url` followed by the bytes `url_tail` that lie
behind the array (no terminator is copied). -/
def urlHasCia (payload url_tail : List Nat) : Bool :=
  (strstr (strlwr (payload ++ url_tail)) dotCia).isSome

/-- Answers of the platform during one iteration of `qrHandler`: the START key,
`threadCreate`, the capture thread's shutdown delay, the payload when quirc
found and decoded a symbol, the bytes behind `url`, and the environments of
`download` and `installCia`. -/
structure HandlerEnv where
  start_pressed : Bool
  threadCreate_ok : Bool
  worker_delay : Nat
  decoded : Option (List Nat)
  url_tail : List Nat
  dl : DownloadEnv
  inst : InstallEnv

/-- Lines 170-193 of `qrHandler`, once a payload has been decoded. -/
def handlePayload (fuel : Nat) (env : HandlerEnv) (payload : List Nat) (w : World) :
    Except Stuck (World × List Action) :=
  if urlHasCia payload env.url_tail = true then
    match download fuel env.dl w.g with
    | .error e => .error e
    | .ok g1 =>
      if R_SUCCEEDED g1.result = true then
        match installCia fuel env.inst with
        | none => .error .outOfFuel
        | some (r, calls) =>
          .ok ({ w with data := { w.data with state := .Ready },
                        g := { g1 with result := r, tmp_cia := none } },
               [.setState .Downloading, .downloadCalled payload, .setState .Installing,
                .installCalled calls, .removeCalled, .setState .Ready])
      else
        .ok ({ w with data := { w.data with state := .Ready }, g := g1 },
             [.setState .Downloading, .downloadCalled payload, .setState .Ready])
  else .ok ({ w with data := { w.data with state := .Ready } }, [.setState .Ready])

/-- The function `qrHandler(data)`: one iteration of the decode loop.  The frame
conversion of lines 157-168 is `convertFrame`; what quirc makes of the image is
the field `decoded` of the environment. -/
def qrHandler (fuel : Nat) (env : HandlerEnv) (w : World) : Except Stuck (World × List Action) :=
  if env.start_pressed = true then qrExit fuel w
  else if w.data.capturing = false ∧ env.threadCreate_ok = false then
    qrExit fuel { w with cancel_signaled := false }
  else
    let w1 : World :=
      if w.data.capturing = false then
        { w with data := { w.data with capturing := true }, cancel_signaled := false,
                 worker := some env.worker_delay }
      else w
    if w1.data.finished = true then qrExit fuel w1
    else
      match env.decoded with
      | none => .ok (w1, [])
      | some payload => handlePayload fuel env payload w1

/-! ## Concrete inputs -/

/-- The statics and the card before the first scan. -/
def initialGlobals : Globals := { result := 0, stream := emptyBuffer, tmp_cia := none }

/-- The session as `qrScanner` sets it up: nothing captured yet, no capture thread. -/
def initialWorld : World :=
  { data := { finished := false, capturing := false, state := .Ready },
    cancel_signaled := false, data_freed := false, worker := none, g := initialGlobals }

/-- The session while a capture thread runs that needs two sleeps to shut down. -/
def capturingWorld : World :=
  { data := { finished := false, capturing := true, state := .Ready },
    cancel_signaled := false, data_freed := false, worker := some 2, g := initialGlobals }

/-- The bytes of `http://example.test/App.CIA`. -/
def appPayload : List Nat :=
  [104, 116, 116, 112, 58, 47, 47, 101, 120, 97, 109, 112, 108, 101, 46, 116, 101, 115, 116, 47,
   65, 112, 112, 46, 67, 73, 65]

/-- A download whose scratch allocation fails. -/
def noScratchDownload : DownloadEnv :=
  { memalign_ok := false, socInit_result := 0, chunks := [], transfer_code := 0,
    fopen_ok := true, fwrite_complete := true, fwrite_partial := 0 }

/-- A download of the two sample chunks that succeeds throughout. -/
def sampleDownload : DownloadEnv :=
  { memalign_ok := true, socInit_result := 0, chunks := sampleChunks, transfer_code := 0,
    fopen_ok := true, fwrite_complete := true, fwrite_partial := 0 }

/-- A download whose transfer of three bytes succeeds and whose `fwrite` to
`/tmp.cia` is short: one byte reaches the file. -/
def shortWriteDownload : DownloadEnv :=
  { memalign_ok := true, socInit_result := 0,
    chunks := [{ ptr := [1, 2, 3], size := 1, nmemb := 3, heap := okHeap }],
    transfer_code := 0, fopen_ok := true, fwrite_complete := false, fwrite_partial := 1 }

/-- An install of a file of 8192 bytes in which every service call succeeds. -/
def sampleInstall : InstallEnv :=
  { open_result := 0, info_result := 0, titleID := 1, titleCount_result := 0,
    titleList_result := 0, titleIDs := [], delete_result := 0, size_result := 0, size := 8192,
    start_result := 0, read_result := fun _ => 0, write_result := fun _ => 0,
    finish_result := 0, close_result := 0 }

/-- The same install, except that the write of the first chunk fails. -/
def failedWriteInstall : InstallEnv :=
  { sampleInstall with write_result := fun offset => if offset = 0 then -1 else 0 }

/-- An iteration in which `threadCreate` fails. -/
def threadFailureEnv : HandlerEnv :=
  { start_pressed := false, threadCreate_ok := false, worker_delay := 0, decoded := none,
    url_tail := [], dl := noScratchDownload, inst := sampleInstall }

/-- An iteration that decodes `payload`, with a terminator right behind `url`. -/
def decodeEnv (payload : List Nat) (dl : DownloadEnv) (inst : InstallEnv) : HandlerEnv :=
  { start_pressed := false, threadCreate_ok := true, worker_delay := 2,
    decoded := some payload, url_tail := [0], dl := dl, inst := inst }

/-! ## The shared frame: `camThread`, `qrHandler` and `uiThread` on `camera_buffer` -/

/-- Number of `u16` elements of `camera_buffer` and of the capture thread's `buffer`. -/
def FRAME_PIXELS : Nat := 400 * 240

/-- The threads that take `data->mutex`. -/
inductive Thread where
  | cam
  | qr
  deriving DecidableEq, Repr

/-- The `calloc`ed contents of `camera_buffer`. -/
def zeroFrame : Nat → Nat := fun _ => 0

/-- Index (in `u16` elements) written in the texture by `uiThread`: `dstPos / 2`
of line 299. -/
def texIndex (x y : Nat) : Nat :=
  (((y >>> 3) * (512 >>> 3) + (x >>> 3)) <<< 6) +
    ((x &&& 1) ||| ((y &&& 1) <<< 1) ||| ((x &&& 2) <<< 1) ||| ((y &&& 2) <<< 2) |||
      ((x &&& 4) <<< 2) ||| ((y &&& 4) <<< 3))

/-- The memory shared by the three threads and where each thread stands.
`cam_pc = some i`: `camThread` is between lines 246 and 249 and its `memcpy` has
copied `i` elements.  `qr_pc = some k`: `qrHandler` is between lines 159 and 168
and has run `k` iterations of the nested loops (`x = k / 240`, `y = k % 240`).
`ui_pc = k`: `uiThread` has run `k` iterations of its nested loops.  The lists
record the frames whose copy was completed, the images `qrHandler` handed to the
decoder and the textures `uiThread` drew. -/
structure FrameSink where
  camera_buffer : Nat → Nat
  mutex : Option Thread
  buffer : Nat → Nat
  cam_pc : Option Nat
  completed : List (Nat → Nat)
  image : Nat → Nat
  qr_pc : Option Nat
  snapshots : List (Nat → Nat)
  tex : Nat → Nat
  ui_pc : Nat
  drawn : List (Nat → Nat)

/-- The atomic moves of the three threads. -/
inductive Move where
  /-- line 246: the frame-ready event fired with `frame` in `buffer`, and
  `svcWaitSynchronization(data->mutex)` returns -/
  | camLock (frame : Nat → Nat)
  /-- line 247: `memcpy` copies one more element -/
  | camCopy
  /-- line 249: `svcReleaseMutex` -/
  | camRelease
  /-- line 159: `svcWaitSynchronization(data->mutex)` returns -/
  | qrLock
  /-- lines 164-165: one iteration of the conversion loops -/
  | qrRead
  /-- line 168: `svcReleaseMutex`, the image goes to the decoder -/
  | qrRelease
  /-- lines 299-301: one iteration of the texture loops -/
  | uiRead
  /-- lines 305-332: the texture is drawn and the next frame begins -/
  | uiDraw

/-- One move, when it is enabled in the state. -/
def step (m : Move) (s : FrameSink) : Option FrameSink :=
  match m with
  | .camLock frame =>
    if s.cam_pc = none ∧ s.mutex = none then
      some { s with mutex := some .cam, cam_pc := some 0, buffer := frame }
    else none
  | .camCopy =>
    match s.cam_pc with
    | some i =>
      if i < FRAME_PIXELS then
        some { s with
          camera_buffer := fun j => if j = i then s.buffer i else s.camera_buffer j,
          cam_pc := some (i + 1) }
      else none
    | none => none
  | .camRelease =>
    if s.cam_pc = some FRAME_PIXELS then
      some { s with mutex := none, cam_pc := none, completed := s.buffer :: s.completed }
    else none
  | .qrLock =>
    if s.qr_pc = none ∧ s.mutex = none then
      some { s with mutex := some .qr, qr_pc := some 0 }
    else none
  | .qrRead =>
    match s.qr_pc with
    | some k =>
      if k < FRAME_PIXELS then
        some { s with
          image := convertPixel s.camera_buffer 400 (k / 240) (k % 240) s.image,
          qr_pc := some (k + 1) }
      else none
    | none => none
  | .qrRelease =>
    if s.qr_pc = some FRAME_PIXELS then
      some { s with mutex := none, qr_pc := none, snapshots := s.image :: s.snapshots }
    else none
  | .uiRead =>
    if s.ui_pc < FRAME_PIXELS then
      some { s with
        tex := fun d =>
          if d = texIndex (s.ui_pc / 240) (s.ui_pc % 240) then
            s.camera_buffer (cameraIndex (s.ui_pc / 240) (s.ui_pc % 240))
          else s.tex d,
        ui_pc := s.ui_pc + 1 }
    else none
  | .uiDraw =>
    if s.ui_pc = FRAME_PIXELS then some { s with ui_pc := 0, drawn := s.tex :: s.drawn }
    else none

/-- An interleaving: the moves are taken one after the other, each enabled in
the state it is taken in. -/
def run : List Move → FrameSink → Option FrameSink
  | [], s => some s
  | m :: ms, s =>
    match step m s with
    | none => none
    | some s1 => run ms s1

/-- The state when the threads start: `camera_buffer` zeroed, the mutex free,
whatever is in the capture buffer, the decoder image and the texture. -/
def initSink (buffer image tex : Nat → Nat) : FrameSink :=
  { camera_buffer := zeroFrame, mutex := none, buffer := buffer, cam_pc := none,
    completed := [], image := image, qr_pc := none, snapshots := [], tex := tex,
    ui_pc := 0, drawn := [] }

/-- The frame was in `camera_buffer` as a whole: it is the zeroed buffer or a
frame whose copy was completed. -/
def Complete (s : FrameSink) (F : Nat → Nat) : Prop := F = zeroFrame ∨ F ∈ s.completed

/-- The image is the conversion of the frame `F`. -/
def ImageOf (img F : Nat → Nat) : Prop :=
  ∀ x y, x < 400 → y < 240 →
    img (imageIndex 400 x y) = luminance (F (cameraIndex x y) % 65536) % 256

/-- The texture holds the frame `F`. -/
def TextureOf (t F : Nat → Nat) : Prop :=
  ∀ x y, x < 400 → y < 240 → t (texIndex x y) = F (cameraIndex x y)

/-- What holds in every reachable state: the mutex is held by the thread that
is inside its critical section, the copy of `camThread` is a prefix of `buffer`,
outside that copy `camera_buffer` holds a complete frame, the image of
`qrHandler` is so far the conversion of `camera_buffer`, and every image handed
to the decoder is the conversion of a complete frame. -/
structure SinkInv (s : FrameSink) : Prop where
  mutex_cam : s.cam_pc.isSome = true ↔ s.mutex = some .cam
  mutex_qr : s.qr_pc.isSome = true ↔ s.mutex = some .qr
  copying : ∀ i, s.cam_pc = some i →
    i ≤ FRAME_PIXELS ∧ ∀ j, j < i → s.camera_buffer j = s.buffer j
  stable : s.cam_pc = none →
    ∃ F, Complete s F ∧ ∀ j, j < FRAME_PIXELS → s.camera_buffer j = F j
  converting : ∀ k, s.qr_pc = some k →
    k ≤ FRAME_PIXELS ∧ ∀ j, j < k →
      s.image (imageIndex 400 (j / 240) (j % 240))
        = luminance (s.camera_buffer (cameraIndex (j / 240) (j % 240)) % 65536) % 256
  snaps : ∀ img, img ∈ s.snapshots → ∃ F, Complete s F ∧ ImageOf img F

/-- The frame used in the examples: every pixel is 1. -/
def onesFrame : Nat → Nat := fun _ => 1

/-- An interleaving in which `uiThread` copies all but the last pixel, then
`camThread` writes a whole frame of ones under the mutex, then `uiThread` copies
the last pixel and draws. -/
def tearingSchedule : List Move :=
  List.replicate (FRAME_PIXELS - 1) Move.uiRead ++
    (Move.camLock onesFrame :: List.replicate FRAME_PIXELS Move.camCopy) ++
    [Move.camRelease, Move.uiRead, Move.uiDraw]

/-- An interleaving in which `camThread` writes a frame of ones and `qrHandler`
then converts the whole frame. -/
def decodeSchedule : List Move :=
  (Move.camLock onesFrame :: List.replicate FRAME_PIXELS Move.camCopy) ++
    (Move.camRelease :: Move.qrLock :: List.replicate FRAME_PIXELS Move.qrRead) ++
    [Move.qrRelease]

/-! # Theorems -/

/-! ## Growth of the StreamBuffer -/

theorem growLoop_spec (fuel : Nat) : ∀ (need sz : Nat) (nr : Bool),
    0 < sz → need ≤ 2 ^ 31 → need ≤ sz * 2 ^ fuel →
    ∃ k nr1, growLoop (fuel + 1) need sz nr = some (sz * 2 ^ k, nr1) ∧
      need ≤ sz * 2 ^ k ∧ (k = 0 ∨ sz * 2 ^ (k - 1) < need) ∧
      (k = 0 → nr1 = nr) ∧ (0 < k → nr1 = true) := by
  induction fuel with
  | zero =>
    intro need sz nr _ _ hfuel
    refine ⟨0, nr, ?_, by simpa using hfuel, Or.inl rfl, fun _ => rfl, fun h => absurd h (by decide)⟩
    have : ¬ need > sz := by simpa using hfuel
    simp [growLoop, this]
  | succ n ih =>
    intro need sz nr hsz hneed hfuel
    by_cases hgt : need > sz
    · have hmod : (sz * 2) % SIZE_MOD = sz * 2 := by
        apply Nat.mod_eq_of_lt
        simp only [SIZE_MOD]
        omega
      have hfuel2 : need ≤ (sz * 2) * 2 ^ n := by
        rw [Nat.mul_assoc, ← Nat.pow_succ']
        exact hfuel
      obtain ⟨k, nr1, hrun, hle, hmin, _, _⟩ := ih need (sz * 2) true (by omega) hneed hfuel2
      refine ⟨k + 1, nr1, ?_, ?_, Or.inr ?_, fun h => absurd h (by omega), fun _ => ?_⟩
      · rw [growLoop, if_pos hgt, hmod, hrun, Nat.pow_succ']
        simp [Nat.mul_assoc]
      · rw [Nat.pow_succ', ← Nat.mul_assoc]
        exact hle
      · rcases hmin with h0 | hlt
        · subst h0
          simpa using hgt
        · have hk : k - 1 + 1 = k := by
            rcases Nat.eq_zero_or_pos k with h | h
            · subst h
              simp at hlt
              omega
            · omega
          have : sz * 2 ^ k = sz * 2 * 2 ^ (k - 1) := by
            conv_lhs => rw [← hk, Nat.pow_succ']
            rw [Nat.mul_assoc]
          simpa [this] using hlt
      · rcases Nat.eq_zero_or_pos k with h | h
        · have := (‹k = 0 → nr1 = true›) h
          exact this
        · exact (‹0 < k → nr1 = true›) h
    · refine ⟨0, nr, ?_, by simpa using Nat.le_of_not_gt hgt, Or.inl rfl, fun _ => rfl,
        fun h => absurd h (by decide)⟩
      simp [growLoop, hgt]

theorem region_some (b : Block) (sz w : Nat) :
    region { result_buf := some b, result_sz := sz, result_written := w }
      = (List.range w).map b.bytes := rfl

theorem map_range_append (f : Nat → Nat) (w : Nat) (l : List Nat)
    (hw : ∀ i, i < w + l.length → i ≥ w → f i = l.getD (i - w) 0) :
    (List.range (w + l.length)).map f = (List.range w).map f ++ l := by
  apply List.ext_getElem
  · simp
  · intro i h1 h2
    simp only [List.length_map, List.length_range] at h1
    by_cases hi : i < w
    · rw [List.getElem_append_left (by simpa using hi)]
      simp
    · rw [List.getElem_append_right (by simpa using hi)]
      simp only [List.getElem_map, List.getElem_range, List.length_map, List.length_range]
      rw [hw i h1 (by omega), List.getD_eq_getElem?_getD, List.getElem?_eq_getElem (by omega)]
      rfl

/-- One call of `handle_data` on a well-formed buffer when no `size_t`
computation wraps and the allocator succeeds. -/
theorem handle_data_step (fuel : Nat) (hfuel : 33 ≤ fuel) (h : Heap) (ptr : List Nat)
    (size nmemb : Nat) (s : StreamBuffer)
    (hwf : s.WF) (hle : s.result_written ≤ s.result_sz)
    (hm : h.malloc_ok = true) (hr : h.realloc_ok = true)
    (hN : s.result_written + size * nmemb ≤ 2 ^ 31) :
    ∃ s1 k, handle_data fuel h ptr size nmemb s = .ok (s1, size * nmemb) ∧
      s1.WF ∧ s1.result_buf.isSome = true ∧
      s1.result_written = s.result_written + size * nmemb ∧
      s1.result_written ≤ s1.result_sz ∧
      (ptr.length = size * nmemb → region s1 = region s ++ ptr) ∧
      s1.result_sz =
        (if s.result_sz = 0 ∨ s.result_buf.isNone = true then 4096 else s.result_sz) * 2 ^ k ∧
      (k = 0 ∨
        (if s.result_sz = 0 ∨ s.result_buf.isNone = true then 4096 else s.result_sz) * 2 ^ (k - 1)
          < s1.result_written) := by
  obtain ⟨buf, sz, w⟩ := s
  simp only at hle hN
  have hbsz : (size * nmemb) % SIZE_MOD = size * nmemb :=
    Nat.mod_eq_of_lt (by simp only [SIZE_MOD]; omega)
  have hneed : (w + size * nmemb) % SIZE_MOD = w + size * nmemb :=
    Nat.mod_eq_of_lt (by simp only [SIZE_MOD]; omega)
  obtain ⟨n, rfl⟩ : ∃ n, fuel = n + 1 := ⟨fuel - 1, by omega⟩
  -- the block and capacity after the initial allocation
  obtain ⟨b0, sz0, hs0, hb0, hsz0, hw0, hreg0, hsz0eq⟩ :
      ∃ b0 sz0,
        (if sz = 0 ∨ buf.isNone = true then
            ({ result_buf := malloc h 0x1000, result_sz := 0x1000, result_written := w } :
              StreamBuffer)
          else { result_buf := buf, result_sz := sz, result_written := w })
          = { result_buf := some b0, result_sz := sz0, result_written := w } ∧
        b0.size = sz0 ∧ 0 < sz0 ∧ w ≤ sz0 ∧
        (List.range w).map b0.bytes
          = region { result_buf := buf, result_sz := sz, result_written := w } ∧
        sz0 = (if sz = 0 ∨ buf.isNone = true then 4096 else sz) := by
    by_cases hc : sz = 0 ∨ buf.isNone = true
    · have hw : w = 0 := by
        rcases hc with h0 | hnone
        · omega
        · cases buf with
          | none => exact hwf
          | some b => simp at hnone
      subst hw
      refine ⟨{ size := 0x1000, bytes := h.junk }, 0x1000, ?_, rfl, by decide, by decide, ?_, ?_⟩
      · rw [if_pos hc]
        simp [malloc, hm]
      · cases buf <;> rfl
      · rw [if_pos hc]
    · have hsz : sz ≠ 0 := fun h0 => hc (Or.inl h0)
      cases buf with
      | none => exact absurd (Or.inr rfl) hc
      | some b =>
        refine ⟨b, sz, by simp [hsz], hwf, by omega, hle, rfl, by simp [hsz]⟩
  have hfuel2 : w + size * nmemb ≤ sz0 * 2 ^ n := by
    have h1 : (2 : Nat) ^ 31 ≤ 2 ^ n := Nat.pow_le_pow_right (by decide) (by omega)
    calc w + size * nmemb ≤ 2 ^ 31 := hN
      _ ≤ 2 ^ n := h1
      _ ≤ sz0 * 2 ^ n := Nat.le_mul_of_pos_left _ hsz0
  obtain ⟨k, nr1, hrun, hfit, hmin, hk0, hkpos⟩ :=
    growLoop_spec n (w + size * nmemb) sz0 false hsz0 hN hfuel2
  rcases Nat.eq_zero_or_pos k with hk | hk
  · -- no growth: the block is used as it is
    subst hk
    have hnr : nr1 = false := hk0 rfl
    subst hnr
    simp only [Nat.pow_zero, Nat.mul_one] at hrun hfit
    refine ⟨{ result_buf := some { size := b0.size, bytes := fun i =>
                if w ≤ i ∧ i < w + size * nmemb then ptr.getD (i - w) 0 else b0.bytes i },
              result_sz := sz0, result_written := w + size * nmemb }, 0, ?_, ?_, rfl, rfl, hfit,
            ?_, ?_, Or.inl rfl⟩
    · simp only [handle_data, hbsz, hs0, hneed, hrun]
      simp [copyChunk, memcpy, hb0, hfit, hneed]
    · exact hb0
    · intro hlen
      rw [region_some, ← hreg0, ← hlen]
      rw [map_range_append _ w ptr (fun i h1 h2 => by dsimp only; rw [if_pos ⟨h2, h1⟩])]
      congr 1
      apply List.map_congr_left
      intro i hi
      have : i < w := by simpa using hi
      dsimp only
      rw [if_neg (by omega)]
    · simp [← hsz0eq]
  · -- growth: the block is reallocated to the doubled capacity
    have hnr : nr1 = true := hkpos hk
    subst hnr
    refine ⟨{ result_buf := some { size := sz0 * 2 ^ k, bytes := fun i =>
                if w ≤ i ∧ i < w + size * nmemb then ptr.getD (i - w) 0
                else (if i < b0.size then b0.bytes i else h.junk i) },
              result_sz := sz0 * 2 ^ k, result_written := w + size * nmemb }, k, ?_, rfl, rfl, rfl,
            hfit, ?_, ?_, Or.inr ?_⟩
    · simp only [handle_data, hbsz, hs0, hneed, hrun]
      simp [copyChunk, memcpy, realloc, hr, hfit, hneed]
    · intro hlen
      rw [region_some, ← hreg0, ← hlen]
      rw [map_range_append _ w ptr (fun i h1 h2 => by dsimp only; rw [if_pos ⟨h2, h1⟩])]
      congr 1
      apply List.map_congr_left
      intro i hi
      have : i < w := by simpa using hi
      dsimp only
      rw [if_neg (by omega), if_pos (by omega)]
    · simp [← hsz0eq]
    · rcases hmin with h0 | hlt
      · omega
      · simpa [← hsz0eq] using hlt

theorem tight_step (s s1 : StreamBuffer) (k : Nat) (hs : s.Tight ∨ s.Fresh)
    (hsome : s1.result_buf.isSome = true)
    (hmono : s.result_written ≤ s1.result_written)
    (hsz : s1.result_sz =
      (if s.result_sz = 0 ∨ s.result_buf.isNone = true then 4096 else s.result_sz) * 2 ^ k)
    (hmin : k = 0 ∨
      (if s.result_sz = 0 ∨ s.result_buf.isNone = true then 4096 else s.result_sz) * 2 ^ (k - 1)
        < s1.result_written) : s1.Tight := by
  refine ⟨hsome, ?_⟩
  by_cases hf : s.result_sz = 0 ∨ s.result_buf.isNone = true
  · rw [if_pos hf] at hsz hmin
    exact ⟨k, hsz, hmin⟩
  · rw [if_neg hf] at hsz hmin
    rcases hs with ht | hfresh
    · obtain ⟨_, j, hj, hjmin⟩ := ht
      refine ⟨j + k, by rw [hsz, hj, Nat.pow_add, Nat.mul_assoc], ?_⟩
      rcases hmin with hk | hlt
      · subst hk
        rcases hjmin with h0 | h1
        · exact Or.inl (by omega)
        · exact Or.inr (by simpa using Nat.lt_of_lt_of_le h1 hmono)
      · rcases Nat.eq_zero_or_pos k with hk | hk
        · subst hk
          rcases hjmin with h0 | h1
          · exact Or.inl (by omega)
          · exact Or.inr (by simpa using Nat.lt_of_lt_of_le h1 hmono)
        · right
          have : j + k - 1 = j + (k - 1) := by omega
          rw [this, Nat.pow_add, ← Nat.mul_assoc, ← hj]
          exact hlt
    · exact absurd hfresh hf

/-- A run of calls of `handle_data` on a well-formed buffer, all allocations
succeeding and no `size_t` computation wrapping. -/
theorem feed_spec (fuel : Nat) (hfuel : 33 ≤ fuel) : ∀ (cs : List Chunk) (s : StreamBuffer),
    s.WF → s.result_written ≤ s.result_sz →
    (∀ c ∈ cs, c.heap.malloc_ok = true ∧ c.heap.realloc_ok = true) →
    s.result_written + totalLen cs ≤ 2 ^ 31 →
    ∃ s1, feed fuel cs s = .ok (s1, cs.map fun c => c.size * c.nmemb) ∧
      s1.WF ∧ s1.result_written = s.result_written + totalLen cs ∧
      s1.result_written ≤ s1.result_sz ∧
      ((∀ c ∈ cs, c.ptr.length = c.size * c.nmemb) →
        region s1 = region s ++ (cs.map Chunk.ptr).flatten) ∧
      (cs ≠ [] → s.Tight ∨ s.Fresh → s1.Tight) := by
  intro cs
  induction cs with
  | nil =>
    intro s hwf hle _ _
    exact ⟨s, rfl, hwf, by simp [totalLen], hle, fun _ => by simp, fun h => absurd rfl h⟩
  | cons c cs ih =>
    intro s hwf hle hok hN
    have hc := hok c (List.mem_cons_self _ _)
    have htot : totalLen (c :: cs) = c.size * c.nmemb + totalLen cs := by
      simp [totalLen]
    rw [htot] at hN
    obtain ⟨s1, k, hrun, hwf1, hsome1, hw1, hle1, hreg1, hsz1, hmin1⟩ :=
      handle_data_step fuel hfuel c.heap c.ptr c.size c.nmemb s hwf hle hc.1 hc.2 (by omega)
    obtain ⟨s2, hrun2, hwf2, hw2, hle2, hreg2, htight2⟩ :=
      ih s1 hwf1 hle1 (fun d hd => hok d (List.mem_cons_of_mem _ hd)) (by omega)
    refine ⟨s2, ?_, hwf2, by omega, hle2, ?_, ?_⟩
    · simp [feed, hrun, hrun2]
    · intro hlen
      rw [hreg2 (fun d hd => hlen d (List.mem_cons_of_mem _ hd)),
        hreg1 (hlen c (List.mem_cons_self _ _))]
      simp
    · intro _ hs
      have ht1 : s1.Tight := tight_step s s1 k hs hsome1 (by omega) hsz1 hmin1
      cases cs with
      | nil =>
        simp only [feed] at hrun2
        cases hrun2
        exact ht1
      | cons d ds => exact htight2 (by simp) (Or.inl ht1)

/-- Claim C1. Starting from the reset buffer (no block, capacity 0, nothing
written), every non-empty sequence of calls of `handle_data` whose allocations
all succeed and whose total length `N` keeps every `size_t` computation of the
callback from wrapping (`N ≤ 2 ^ 31`) returns, and afterwards
`result_written = N`, `result_sz ≥ N` and `result_sz` is the least value of the
form `4096 * 2 ^ k` that is at least `N`, whatever the split into chunks. -/
theorem handle_data_capacity (fuel : Nat) (hfuel : 33 ≤ fuel) (cs : List Chunk)
    (hne : cs ≠ [])
    (halloc : ∀ c ∈ cs, c.heap.malloc_ok = true ∧ c.heap.realloc_ok = true)
    (hN : totalLen cs ≤ 2 ^ 31) :
    ∃ s rets, feed fuel cs emptyBuffer = .ok (s, rets) ∧
      s.result_written = totalLen cs ∧
      totalLen cs ≤ s.result_sz ∧
      (∃ k, s.result_sz = 4096 * 2 ^ k) ∧
      (∀ k, totalLen cs ≤ 4096 * 2 ^ k → s.result_sz ≤ 4096 * 2 ^ k) := by
  obtain ⟨s, hrun, _, hw, hle, _, htight⟩ :=
    feed_spec fuel hfuel cs emptyBuffer rfl (Nat.le_refl _) halloc
      (by simpa [emptyBuffer] using hN)
  have hw0 : s.result_written = totalLen cs := by simpa [emptyBuffer] using hw
  obtain ⟨_, j, hj, hjmin⟩ := htight hne (Or.inr (Or.inl rfl))
  refine ⟨s, _, hrun, hw0, by omega, ⟨j, hj⟩, ?_⟩
  intro k hk
  rw [hj]
  apply Nat.mul_le_mul_left
  rcases hjmin with h0 | hlt
  · subst h0
    exact Nat.pow_le_pow_right (by decide) (Nat.zero_le _)
  · have h2 : 4096 * 2 ^ (j - 1) < 4096 * 2 ^ k := by omega
    have h3 : 2 ^ (j - 1) < 2 ^ k := Nat.lt_of_mul_lt_mul_left h2
    have h4 : j - 1 < k := (Nat.pow_lt_pow_iff_right (by decide)).1 h3
    exact Nat.pow_le_pow_right (by decide) (by omega)

theorem sampleChunks_alloc :
    ∀ c ∈ sampleChunks, c.heap.malloc_ok = true ∧ c.heap.realloc_ok = true := by
  intro c hc
  simp only [sampleChunks, List.mem_cons, List.mem_singleton, List.not_mem_nil, or_false] at hc
  rcases hc with rfl | rfl <;> exact ⟨rfl, rfl⟩

theorem sampleChunks_len : ∀ c ∈ sampleChunks, c.ptr.length = c.size * c.nmemb := by
  intro c hc
  simp only [sampleChunks, List.mem_cons, List.mem_singleton, List.not_mem_nil, or_false] at hc
  rcases hc with rfl | rfl
  · rfl
  · exact List.length_replicate _ _

theorem sampleChunks_total : totalLen sampleChunks = 5003 := rfl

/-- Witness of C1: 3 + 5000 bytes in two chunks end in a capacity of 8192. -/
theorem handle_data_capacity_witness :
    (33 ≤ 33 ∧ sampleChunks ≠ [] ∧ totalLen sampleChunks ≤ 2 ^ 31) ∧
    ∃ s rets, feed 33 sampleChunks emptyBuffer = .ok (s, rets) ∧
      s.result_written = totalLen sampleChunks ∧
      totalLen sampleChunks ≤ s.result_sz ∧
      (∃ k, s.result_sz = 4096 * 2 ^ k) ∧
      (∀ k, totalLen sampleChunks ≤ 4096 * 2 ^ k → s.result_sz ≤ 4096 * 2 ^ k) :=
  ⟨⟨by decide, List.cons_ne_nil _ _, by rw [sampleChunks_total]; decide⟩,
   handle_data_capacity 33 (by decide) sampleChunks (List.cons_ne_nil _ _)
     sampleChunks_alloc (by rw [sampleChunks_total]; decide)⟩

/-! ## Appending to the StreamBuffer -/

/-- Once the capacity has wrapped to zero the doubling loop never ends. -/
theorem growLoop_zero (fuel : Nat) : ∀ (need : Nat) (nr : Bool), 0 < need →
    growLoop fuel need 0 nr = none := by
  induction fuel with
  | zero => intro need nr _; rfl
  | succ n ih =>
    intro need nr hpos
    rw [growLoop, if_pos hpos]
    exact ih need true hpos

/-- More fuel never changes a result the loop has already produced. -/
theorem growLoop_mono (fuel : Nat) : ∀ (need sz : Nat) (nr : Bool) (r : Nat × Bool),
    growLoop fuel need sz nr = some r → growLoop (fuel + 1) need sz nr = some r := by
  induction fuel with
  | zero => intro need sz nr r h; simp [growLoop] at h
  | succ n ih =>
    intro need sz nr r h
    rw [growLoop] at h ⊢
    by_cases hgt : need > sz
    · rw [if_pos hgt] at h ⊢
      exact ih _ _ _ _ h
    · rw [if_neg hgt] at h ⊢
      exact h

/-- A request above `2 ^ 31` bytes makes the doubling wrap, from any capacity
that is a power of two. -/
theorem growLoop_overflow (fuel : Nat) : ∀ (j need : Nat) (nr : Bool), j ≤ 31 →
    2 ^ 31 < need → growLoop fuel need (2 ^ j) nr = none := by
  induction fuel with
  | zero => intro j need nr _ _; rfl
  | succ n ih =>
    intro j need nr hj hneed
    have hle : 2 ^ j ≤ 2 ^ 31 := Nat.pow_le_pow_right (by decide) hj
    rw [growLoop, if_pos (by omega)]
    rcases Nat.lt_or_ge j 31 with hlt | hge
    · have h2 : 2 ^ (j + 1) ≤ 2 ^ 31 := Nat.pow_le_pow_right (by decide) (by omega)
      have hmod : (2 ^ j * 2) % SIZE_MOD = 2 ^ (j + 1) := by
        rw [← Nat.pow_succ]
        exact Nat.mod_eq_of_lt (by simp only [SIZE_MOD]; omega)
      rw [hmod]
      exact ih (j + 1) need true (by omega) hneed
    · have hj31 : j = 31 := by omega
      subst hj31
      have hmod : (2 ^ 31 * 2) % SIZE_MOD = 0 := by decide
      rw [hmod]
      exact growLoop_zero n need true (by omega)

/-- The bound `2 ^ 31` is sharp: from the reset buffer, a single chunk of
`2 ^ 31 + 1` bytes keeps `handle_data` in its loop for ever. -/
theorem handle_data_capacity_bound_sharp (h : Heap) (ptr : List Nat) :
    ¬ ∃ fuel r, handle_data fuel h ptr 1 (2 ^ 31 + 1) emptyBuffer = .ok r := by
  rintro ⟨fuel, r, hr⟩
  have hloop : growLoop fuel ((0 + (1 * (2 ^ 31 + 1)) % SIZE_MOD) % SIZE_MOD) 0x1000 false
      = none :=
    growLoop_overflow fuel 12 _ false (by decide) (by decide)
  have hs : handle_data fuel h ptr 1 (2 ^ 31 + 1) emptyBuffer = .error .outOfFuel := by
    simp only [handle_data, emptyBuffer, true_or, if_true]
    rw [hloop]
  rw [hs] at hr
  cases hr

/-- Claim C2, as amended. For every well-formed buffer with `written ≤ capacity`
and every run of chunks of length `size * nmemb` whose allocations succeed and
for which `written + total length ≤ 2 ^ 31` (so that neither the sum nor the
doubling of `result_sz` wraps), each call of `handle_data` returns the chunk
length, `result_written` grows by the total length, and `[0, written)` is the
old region followed by the chunks in delivery order. -/
theorem handle_data_appends (fuel : Nat) (hfuel : 33 ≤ fuel) (cs : List Chunk)
    (s : StreamBuffer) (hwf : s.WF) (hle : s.result_written ≤ s.result_sz)
    (halloc : ∀ c ∈ cs, c.heap.malloc_ok = true ∧ c.heap.realloc_ok = true)
    (hlen : ∀ c ∈ cs, c.ptr.length = c.size * c.nmemb)
    (hN : s.result_written + totalLen cs ≤ 2 ^ 31) :
    ∃ s1, feed fuel cs s = .ok (s1, cs.map fun c => c.size * c.nmemb) ∧
      s1.result_written = s.result_written + totalLen cs ∧
      s1.result_written ≤ s1.result_sz ∧
      region s1 = region s ++ (cs.map Chunk.ptr).flatten := by
  obtain ⟨s1, hrun, _, hw, hle1, hreg, _⟩ := feed_spec fuel hfuel cs s hwf hle halloc hN
  exact ⟨s1, hrun, hw, hle1, hreg hlen⟩

/-- Witness of C2 as amended: the two sample chunks appended to the empty buffer. -/
theorem handle_data_appends_witness :
    (33 ≤ 33 ∧ emptyBuffer.WF ∧ emptyBuffer.result_written ≤ emptyBuffer.result_sz ∧
      emptyBuffer.result_written + totalLen sampleChunks ≤ 2 ^ 31) ∧
    ∃ s1, feed 33 sampleChunks emptyBuffer
        = .ok (s1, sampleChunks.map fun c => c.size * c.nmemb) ∧
      s1.result_written = emptyBuffer.result_written + totalLen sampleChunks ∧
      s1.result_written ≤ s1.result_sz ∧
      region s1 = region emptyBuffer ++ (sampleChunks.map Chunk.ptr).flatten :=
  ⟨⟨by decide, rfl, Nat.le_refl _, by rw [sampleChunks_total]; decide⟩,
   handle_data_appends 33 (by decide) sampleChunks emptyBuffer rfl (Nat.le_refl _)
     sampleChunks_alloc sampleChunks_len (by rw [sampleChunks_total]; decide)⟩

/-- Counterexample to C2 as stated: on a well-formed full buffer of `2 ^ 31`
bytes (`written = capacity`), a one-byte chunk with a succeeding allocator makes
`result_sz <<= 1` wrap to 0, after which the loop condition stays true: with no
amount of fuel does `handle_data` return. -/
theorem handle_data_wrap_counterexample :
    fullBuffer.WF ∧ fullBuffer.result_written ≤ fullBuffer.result_sz ∧
    okHeap.malloc_ok = true ∧ okHeap.realloc_ok = true ∧ [7].length = 1 * 1 ∧
    ¬ ∃ fuel r, handle_data fuel okHeap [7] 1 1 fullBuffer = .ok r := by
  refine ⟨rfl, Nat.le_refl _, rfl, rfl, rfl, ?_⟩
  rintro ⟨fuel, r, hr⟩
  have hloop : growLoop fuel ((2 ^ 31 + 1) % SIZE_MOD) (2 ^ 31) false = none := by
    cases fuel with
    | zero => rfl
    | succ n =>
      have h1 : (2 ^ 31 + 1) % SIZE_MOD > 2 ^ 31 := by decide
      have h2 : (2 ^ 31 * 2) % SIZE_MOD = 0 := by decide
      rw [growLoop, if_pos h1, h2]
      exact growLoop_zero n _ true (by decide)
  have hs : handle_data fuel okHeap [7] 1 1 fullBuffer = .error .outOfFuel := by
    have h0 : ¬ ((2 : Nat) ^ 31 = 0 ∨ False) := by decide
    simp only [handle_data, fullBuffer, Option.isNone_some, Bool.false_eq_true, if_neg h0,
      Nat.mul_one, Nat.one_mod_eq_one.mpr (show SIZE_MOD ≠ 1 by decide)]
    rw [hloop]
  rw [hs] at hr
  cases hr

/-! ## Frame conversion -/

theorem convertColumn_spec (cam : Nat → Nat) (w x : Nat) (hx : x < w) (image : Nat → Nat) :
    ∀ (n i : Nat), convertColumn cam w x n image i =
      if i % w = x ∧ i / w < n then luminance (cam (cameraIndex x (i / w)) % 65536) % 256
      else image i := by
  intro n
  induction n with
  | zero => intro i; simp [convertColumn]
  | succ n ih =>
    intro i
    have hw : 0 < w := by omega
    simp only [convertColumn, convertPixel, imageIndex]
    by_cases hi : i = n * w + x
    · subst hi
      have h1 : (n * w + x) % w = x := by
        rw [Nat.add_comm, Nat.add_mul_mod_self_right, Nat.mod_eq_of_lt hx]
      have h2 : (n * w + x) / w = n := by
        rw [Nat.add_comm, Nat.add_mul_div_right _ _ hw, Nat.div_eq_of_lt hx, Nat.zero_add]
      simp [h1, h2]
    · rw [if_neg hi, ih i]
      by_cases hc : i % w = x ∧ i / w < n
      · rw [if_pos hc, if_pos ⟨hc.1, by omega⟩]
      · rw [if_neg hc, if_neg]
        rintro ⟨hm, hd⟩
        have hdn : i / w = n := by
          rcases Nat.lt_or_ge (i / w) n with hlt | hge
          · exact absurd ⟨hm, hlt⟩ hc
          · omega
        apply hi
        have := Nat.div_add_mod i w
        rw [hdn, hm, Nat.mul_comm] at this
        exact this.symm

theorem convertColumns_spec (cam : Nat → Nat) (w h : Nat) (image : Nat → Nat) :
    ∀ (n : Nat), n ≤ w → ∀ i, convertColumns cam w h n image i =
      if i % w < n ∧ i / w < h then
        luminance (cam (cameraIndex (i % w) (i / w)) % 65536) % 256
      else image i := by
  intro n
  induction n with
  | zero => intro _ i; simp [convertColumns]
  | succ n ih =>
    intro hn i
    simp only [convertColumns]
    rw [convertColumn_spec cam w n (by omega), ih (by omega)]
    by_cases h1 : i % w = n ∧ i / w < h
    · rw [if_pos h1, if_pos ⟨by omega, h1.2⟩, h1.1]
    · rw [if_neg h1]
      by_cases h2 : i % w < n ∧ i / w < h
      · rw [if_pos h2, if_pos ⟨by omega, h2.2⟩]
      · rw [if_neg h2, if_neg]
        rintro ⟨h3, h4⟩
        rcases Nat.lt_or_ge (i % w) n with hlt | hge
        · exact h2 ⟨hlt, h4⟩
        · exact h1 ⟨by omega, h4⟩

theorem luminance_le (px : Nat) : luminance px ≤ 249 := by
  unfold luminance
  have h1 : (px >>> 11) &&& 0x1F ≤ 0x1F := Nat.and_le_right
  have h2 : (px >>> 5) &&& 0x3F ≤ 0x3F := Nat.and_le_right
  have h3 : px &&& 0x1F ≤ 0x1F := Nat.and_le_right
  simp only [Nat.shiftLeft_eq]
  omega

/-- Claim C3. With the decoder's working size 400 x 240, for every pixel position
`x < 400`, `y < 240` and every 16-bit value `px` stored at `camera_buffer[y*400 + x]`,
the byte left in `image[y*400 + x]` by the conversion loops is
`(R + G + B) / 3` with `R = ((px >> 11) & 0x1F) << 3`, `G = ((px >> 5) & 0x3F) << 2`,
`B = (px & 0x1F) << 3`; the index `y*400 + x` is below 96000 in both buffers, the
quotient is at most 249 (so the `u8` cast loses nothing), and a pixel holding
`0xF800` converts to 82. -/
theorem qrHandler_conversion (camera_buffer image : Nat → Nat) (x y : Nat)
    (hx : x < 400) (hy : y < 240) :
    convertFrame camera_buffer 400 240 image (y * 400 + x)
        = ((((camera_buffer (y * 400 + x) % 65536) >>> 11) &&& 0x1F) <<< 3
          + (((camera_buffer (y * 400 + x) % 65536) >>> 5) &&& 0x3F) <<< 2
          + ((camera_buffer (y * 400 + x) % 65536) &&& 0x1F) <<< 3) / 3 ∧
      y * 400 + x < 96000 ∧ y * 400 + x < 400 * 240 ∧
      ((((camera_buffer (y * 400 + x) % 65536) >>> 11) &&& 0x1F) <<< 3
          + (((camera_buffer (y * 400 + x) % 65536) >>> 5) &&& 0x3F) <<< 2
          + ((camera_buffer (y * 400 + x) % 65536) &&& 0x1F) <<< 3) / 3 ≤ 249 ∧
      (((((camera_buffer (y * 400 + x) % 65536) >>> 11) &&& 0x1F) <<< 3
          + (((camera_buffer (y * 400 + x) % 65536) >>> 5) &&& 0x3F) <<< 2
          + ((camera_buffer (y * 400 + x) % 65536) &&& 0x1F) <<< 3) / 3) % 256
        = ((((camera_buffer (y * 400 + x) % 65536) >>> 11) &&& 0x1F) <<< 3
          + (((camera_buffer (y * 400 + x) % 65536) >>> 5) &&& 0x3F) <<< 2
          + ((camera_buffer (y * 400 + x) % 65536) &&& 0x1F) <<< 3) / 3 ∧
      (camera_buffer (y * 400 + x) = 0xF800 →
        convertFrame camera_buffer 400 240 image (y * 400 + x) = 82) := by
  have hmod : (y * 400 + x) % 400 = x := by omega
  have hdiv : (y * 400 + x) / 400 = y := by omega
  have hle : luminance (camera_buffer (y * 400 + x) % 65536) ≤ 249 := luminance_le _
  have hval : convertFrame camera_buffer 400 240 image (y * 400 + x)
      = luminance (camera_buffer (y * 400 + x) % 65536) := by
    rw [convertFrame, convertColumns_spec camera_buffer 400 240 image 400 (Nat.le_refl _),
      if_pos ⟨by omega, by omega⟩, hmod, hdiv]
    simp only [cameraIndex]
    exact Nat.mod_eq_of_lt (by omega)
  refine ⟨hval, by omega, by omega, hle, Nat.mod_eq_of_lt (Nat.lt_of_le_of_lt hle (by decide)),
    ?_⟩
  intro hpx
  rw [hval, hpx]
  decide

/-- Witness of C3: in a frame that is white except for one red pixel at column 7,
row 5, that pixel converts to 82 and its right-hand neighbour to 249. -/
theorem qrHandler_conversion_witness :
    (7 < 400 ∧ 5 < 240 ∧ 8 < 400) ∧
    convertFrame (fun i => if i = 2007 then 0xF800 else 0xFFFF) 400 240 (fun _ => 0)
        (5 * 400 + 7) = 82 ∧
    convertFrame (fun i => if i = 2007 then 0xF800 else 0xFFFF) 400 240 (fun _ => 0)
        (5 * 400 + 8) = 249 := by
  refine ⟨⟨by decide, by decide, by decide⟩, ?_, ?_⟩
  · rw [(qrHandler_conversion (fun i => if i = 2007 then 0xF800 else 0xFFFF) (fun _ => 0) 7 5
      (by decide) (by decide)).1]
    decide
  · rw [(qrHandler_conversion (fun i => if i = 2007 then 0xF800 else 0xFFFF) (fun _ => 0) 8 5
      (by decide) (by decide)).1]
    decide

/-! ## Install chunking -/

theorem copyLoop_spec (S : Nat) (hS : S < 2 ^ 64) (fuel : Nat) :
    ∀ (size toRead : Nat), size ≤ S → (size = 0 ∨ toRead = 4096) →
      (size + 4095) / 4096 ≤ fuel →
      copyLoop fuel S size toRead =
        some ((List.range ((size + 4095) / 4096)).map
          fun i => (S - size + 4096 * i, min 4096 (size - 4096 * i))) := by
  induction fuel with
  | zero =>
    intro size toRead _ _ hfuel
    have h0 : size = 0 := by omega
    subst h0
    simp [copyLoop]
  | succ n ih =>
    intro size toRead hle ht hfuel
    by_cases h0 : size = 0
    · subst h0
      simp [copyLoop]
    · have ht4 : toRead = 4096 := by
        rcases ht with h | h
        · exact absurd h h0
        · exact h
      subst ht4
      have hoff : (S + U64_MOD - size) % U64_MOD = S - size := by
        simp only [U64_MOD]
        omega
      by_cases hsmall : size < 4096
      · have hnext : (size + U64_MOD - size % 2 ^ 32) % U64_MOD = 0 := by
          simp only [U64_MOD]
          omega
        have hcnt : (size + 4095) / 4096 = 1 := by omega
        have hm : size % 2 ^ 32 = size := by omega
        rw [copyLoop, if_neg h0]
        simp only [if_pos hsmall, hoff, hnext]
        rw [ih 0 (size % 2 ^ 32) (Nat.zero_le _) (Or.inl rfl) (by omega), hcnt, hm]
        have hmin : min 4096 size = size := by omega
        simp [List.range_succ, hmin]
      · have hnext : (size + U64_MOD - 4096) % U64_MOD = size - 4096 := by
          simp only [U64_MOD]
          omega
        have hcnt : (size + 4095) / 4096 = (size - 4096 + 4095) / 4096 + 1 := by omega
        rw [copyLoop, if_neg h0]
        simp only [if_neg hsmall, hoff, hnext]
        rw [ih (size - 4096) 4096 (by omega) (Or.inr rfl) (by omega), hcnt,
          List.range_succ_eq_map]
        simp only [List.map_cons, List.map_map, Option.some.injEq, List.cons.injEq]
        refine ⟨by simp; omega, ?_⟩
        apply List.map_congr_left
        intro i _
        simp only [Function.comp, Prod.mk.injEq, Nat.succ_eq_add_one]
        constructor
        · omega
        · have : size - 4096 - 4096 * i = size - 4096 * (i + 1) := by omega
          rw [this]

theorem sum_min_chunks (n : Nat) : ∀ (S : Nat), S ≤ 4096 * n →
    ((List.range n).map fun i => min 4096 (S - 4096 * i)).sum = S := by
  induction n with
  | zero => intro S h; simp; omega
  | succ n ih =>
    intro S h
    rw [List.range_succ_eq_map]
    simp only [List.map_cons, List.map_map, List.sum_cons]
    have hshift : ((List.range n).map ((fun i => min 4096 (S - 4096 * i)) ∘ Nat.succ))
        = (List.range n).map fun i => min 4096 (S - 4096 - 4096 * i) := by
      apply List.map_congr_left
      intro i _
      simp only [Function.comp, Nat.succ_eq_add_one]
      have : S - 4096 * (i + 1) = S - 4096 - 4096 * i := by omega
      rw [this]
    rw [hshift, ih (S - 4096) (by omega)]
    omega

/-- Claim C4. For every file size `S` (a `u64`), the copy loop of `installCia`
terminates and issues its reads and writes at the pairs `(4096 * i, length)` for
`i = 0, 1, ...` in increasing order, every length being 4096 except the last,
which is `S mod 4096` when that is not zero; consecutive pairs are adjacent and
the lengths add up to `S`, there are `ceil (S / 4096)` pairs and none has length
zero. -/
theorem installCia_chunking (S fuel : Nat) (hS : S < 2 ^ 64) (hfuel : S / 4096 + 1 ≤ fuel) :
    ∃ ops, copyLoop fuel S S 0x1000 = some ops ∧
      ops.length = (S + 4095) / 4096 ∧
      (∀ (i : Nat) (hi : i < ops.length),
        (ops.get ⟨i, hi⟩).1 = 4096 * i ∧
        (ops.get ⟨i, hi⟩).2
          = (if i + 1 < ops.length ∨ S % 4096 = 0 then 4096 else S % 4096) ∧
        0 < (ops.get ⟨i, hi⟩).2) ∧
      (∀ (i : Nat) (hi : i + 1 < ops.length),
        (ops.get ⟨i + 1, hi⟩).1
          = (ops.get ⟨i, Nat.lt_of_succ_lt hi⟩).1 + (ops.get ⟨i, Nat.lt_of_succ_lt hi⟩).2) ∧
      (ops.map Prod.snd).sum = S := by
  refine ⟨_, copyLoop_spec S hS fuel S 0x1000 (Nat.le_refl _) (Or.inr rfl) (by omega), ?_, ?_, ?_, ?_⟩
  · simp
  · intro i hi
    simp only [List.length_map, List.length_range] at hi
    simp only [List.get_eq_getElem, List.getElem_map, List.getElem_range, List.length_map,
      List.length_range, Nat.sub_self, Nat.zero_add]
    refine ⟨trivial, ?_, ?_⟩
    · by_cases hc : i + 1 < (S + 4095) / 4096 ∨ S % 4096 = 0
      · rw [if_pos hc]
        omega
      · rw [if_neg hc]
        omega
    · omega
  · intro i hi
    simp only [List.length_map, List.length_range] at hi
    simp only [List.get_eq_getElem, List.getElem_map, List.getElem_range, Nat.sub_self,
      Nat.zero_add]
    omega
  · simp only [List.map_map]
    have hfun : (Prod.snd ∘ fun i => (S - S + 4096 * i, min 4096 (S - 4096 * i)))
        = fun i => min 4096 (S - 4096 * i) := rfl
    rw [hfun]
    exact sum_min_chunks _ S (by omega)

/-- Witness of C4: a file of exactly two chunks. -/
theorem installCia_chunking_witness :
    (8192 < 2 ^ 64 ∧ 8192 / 4096 + 1 ≤ 3) ∧
    copyLoop 3 8192 8192 0x1000 = some [(0, 4096), (4096, 4096)] := by
  refine ⟨⟨by decide, by decide⟩, ?_⟩
  obtain ⟨ops, hrun, -⟩ := installCia_chunking 8192 3 (by decide) (by decide)
  rw [hrun]
  have : copyLoop 3 8192 8192 0x1000 = some [(0, 4096), (4096, 4096)] := by decide
  rw [this] at hrun
  exact hrun.symm

/-! ## `download` leaves the StreamBuffer empty -/

/-- Whatever the allocator answers, a call of `handle_data` on a well-formed
buffer returns when no `size_t` computation wraps, and a call that accepted its
chunk leaves a well-formed buffer. -/
theorem handle_data_total (fuel : Nat) (hfuel : 33 ≤ fuel) (h : Heap) (ptr : List Nat)
    (size nmemb : Nat) (s : StreamBuffer)
    (hwf : s.WF) (hle : s.result_written ≤ s.result_sz)
    (hN : s.result_written + size * nmemb ≤ 2 ^ 31) :
    ∃ s1 r, handle_data fuel h ptr size nmemb s = .ok (s1, r) ∧
      (r = size * nmemb → s1.WF ∧ s1.result_written ≤ s1.result_sz ∧
        s1.result_written = s.result_written + size * nmemb) := by
  obtain ⟨buf, sz, w⟩ := s
  simp only at hle hN
  have hbsz : (size * nmemb) % SIZE_MOD = size * nmemb :=
    Nat.mod_eq_of_lt (by simp only [SIZE_MOD]; omega)
  have hneed : (w + size * nmemb) % SIZE_MOD = w + size * nmemb :=
    Nat.mod_eq_of_lt (by simp only [SIZE_MOD]; omega)
  obtain ⟨n, rfl⟩ : ∃ n, fuel = n + 1 := ⟨fuel - 1, by omega⟩
  obtain ⟨buf0, sz0, hs0, hb0, hnone0, hsz0, hw0⟩ :
      ∃ buf0 sz0,
        (if sz = 0 ∨ buf.isNone = true then
            ({ result_buf := malloc h 0x1000, result_sz := 0x1000, result_written := w } :
              StreamBuffer)
          else { result_buf := buf, result_sz := sz, result_written := w })
          = { result_buf := buf0, result_sz := sz0, result_written := w } ∧
        (∀ b, buf0 = some b → b.size = sz0) ∧ (buf0 = none → w = 0) ∧ 0 < sz0 ∧ w ≤ sz0 := by
    by_cases hc : sz = 0 ∨ buf.isNone = true
    · have hw : w = 0 := by
        rcases hc with h0 | hnone
        · omega
        · cases buf with
          | none => exact hwf
          | some b => simp at hnone
      subst hw
      refine ⟨malloc h 0x1000, 0x1000, by rw [if_pos hc], ?_, fun _ => rfl, by decide, by decide⟩
      intro b hb
      unfold malloc at hb
      split at hb
      · cases hb
        rfl
      · cases hb
    · have hsz : sz ≠ 0 := fun h0 => hc (Or.inl h0)
      cases buf with
      | none => exact absurd (Or.inr rfl) hc
      | some b =>
        refine ⟨some b, sz, by rw [if_neg hc], ?_, (fun hb => by cases hb), by omega, hle⟩
        intro b1 hb1
        cases hb1
        exact hwf
  have hfuel2 : w + size * nmemb ≤ sz0 * 2 ^ n := by
    have h1 : (2 : Nat) ^ 31 ≤ 2 ^ n := Nat.pow_le_pow_right (by decide) (by omega)
    calc w + size * nmemb ≤ 2 ^ 31 := hN
      _ ≤ 2 ^ n := h1
      _ ≤ sz0 * 2 ^ n := Nat.le_mul_of_pos_left _ hsz0
  obtain ⟨k, nr1, hrun, hfit, hmin, hk0, hkpos⟩ :=
    growLoop_spec n (w + size * nmemb) sz0 false hsz0 hN hfuel2
  rcases Nat.eq_zero_or_pos k with hk | hk
  · subst hk
    have hnr : nr1 = false := hk0 rfl
    subst hnr
    simp only [Nat.pow_zero, Nat.mul_one] at hrun hfit
    cases buf0 with
    | none =>
      have hw : w = 0 := hnone0 rfl
      subst hw
      refine ⟨{ result_buf := none, result_sz := sz0, result_written := 0 }, 0, ?_, ?_⟩
      · simp only [handle_data, hbsz, hs0, hneed, hrun]
        simp [copyChunk]
      · intro hr
        refine ⟨rfl, Nat.zero_le _, ?_⟩
        simp only
        omega
    | some b =>
      have hb : b.size = sz0 := hb0 b rfl
      refine ⟨{ result_buf := some { size := b.size, bytes := fun i =>
                  if w ≤ i ∧ i < w + size * nmemb then ptr.getD (i - w) 0 else b.bytes i },
                result_sz := sz0, result_written := w + size * nmemb },
              size * nmemb, ?_, fun _ => ⟨hb, hfit, rfl⟩⟩
      simp only [handle_data, hbsz, hs0, hneed, hrun]
      simp [copyChunk, memcpy, hb, hfit, hneed]
  · have hnr : nr1 = true := hkpos hk
    subst hnr
    have hpos : 0 < size * nmemb := by
      rcases hmin with h0 | hlt
      · omega
      · have h1 : sz0 * 1 ≤ sz0 * 2 ^ (k - 1) :=
          Nat.mul_le_mul_left _ (Nat.one_le_two_pow)
        omega
    by_cases hr : h.realloc_ok = true
    · cases buf0 with
      | none =>
        refine ⟨{ result_buf := some { size := sz0 * 2 ^ k, bytes := fun i =>
                    if w ≤ i ∧ i < w + size * nmemb then ptr.getD (i - w) 0 else h.junk i },
                  result_sz := sz0 * 2 ^ k, result_written := w + size * nmemb },
                size * nmemb, ?_, fun _ => ⟨rfl, hfit, rfl⟩⟩
        simp only [handle_data, hbsz, hs0, hneed, hrun]
        simp [copyChunk, memcpy, realloc, hr, hfit, hneed]
      | some b =>
        refine ⟨{ result_buf := some { size := sz0 * 2 ^ k, bytes := fun i =>
                    if w ≤ i ∧ i < w + size * nmemb then ptr.getD (i - w) 0
                    else (if i < b.size then b.bytes i else h.junk i) },
                  result_sz := sz0 * 2 ^ k, result_written := w + size * nmemb },
                size * nmemb, ?_, fun _ => ⟨rfl, hfit, rfl⟩⟩
        simp only [handle_data, hbsz, hs0, hneed, hrun]
        simp [copyChunk, memcpy, realloc, hr, hfit, hneed]
    · refine ⟨{ result_buf := buf0, result_sz := sz0 * 2 ^ k, result_written := w }, 0, ?_,
        fun h0 => absurd h0 (by omega)⟩
      simp only [handle_data, hbsz, hs0, hneed, hrun]
      simp [realloc, hr]

/-- The transfer returns whatever the allocator answers, when the body is at most
`2 ^ 31` bytes long. -/
theorem curl_easy_perform_total (fuel : Nat) (hfuel : 33 ≤ fuel) (code : Nat) :
    ∀ (cs : List Chunk) (s : StreamBuffer), s.WF → s.result_written ≤ s.result_sz →
      s.result_written + totalLen cs ≤ 2 ^ 31 →
      ∃ r, curl_easy_perform fuel code cs s = .ok r := by
  intro cs
  induction cs with
  | nil => intro s _ _ _; exact ⟨_, rfl⟩
  | cons c cs ih =>
    intro s hwf hle hN
    have htot : totalLen (c :: cs) = c.size * c.nmemb + totalLen cs := by
      simp [totalLen]
    rw [htot] at hN
    obtain ⟨s1, r, hrun, hnext⟩ :=
      handle_data_total fuel hfuel c.heap c.ptr c.size c.nmemb s hwf hle (by omega)
    by_cases hr : r = c.size * c.nmemb
    · obtain ⟨hwf1, hle1, hw1⟩ := hnext hr
      obtain ⟨r2, hrun2⟩ := ih s1 hwf1 hle1 (by omega)
      exact ⟨r2, by simp only [curl_easy_perform, hrun, if_pos hr, hrun2]⟩
    · exact ⟨(s1, 23), by simp only [curl_easy_perform, hrun, if_neg hr]⟩

/-- A transfer that ends with `CURLE_OK` ended with its own code. -/
theorem curl_easy_perform_code (fuel : Nat) (code : Nat) : ∀ (cs : List Chunk)
    (s s1 : StreamBuffer) (c : Nat),
    curl_easy_perform fuel code cs s = .ok (s1, c) → c = code ∨ c = 23 := by
  intro cs
  induction cs with
  | nil =>
    intro s s1 c hc
    simp only [curl_easy_perform, Except.ok.injEq, Prod.mk.injEq] at hc
    exact Or.inl hc.2.symm
  | cons d ds ihd =>
    intro s s1 c hc
    simp only [curl_easy_perform] at hc
    split at hc
    · cases hc
    · split at hc
      · exact ihd _ _ _ hc
      · simp only [Except.ok.injEq, Prod.mk.injEq] at hc
        exact Or.inr hc.2.symm

/-- From an empty StreamBuffer `download` returns on the two early failure paths
and, for a body of at most `2 ^ 31` bytes, on the transfer paths, provided
`fopen` yields a stream when the transfer succeeded. -/
theorem download_returns (fuel : Nat) (env : DownloadEnv) (g : Globals)
    (hempty : g.stream = emptyBuffer)
    (hpath : env.memalign_ok = false ∨ R_FAILED env.socInit_result = true ∨
      (33 ≤ fuel ∧ totalLen env.chunks ≤ 2 ^ 31 ∧
        (env.transfer_code = 0 → env.fopen_ok = true))) :
    ∃ g1, download fuel env g = .ok g1 := by
  unfold download
  by_cases hm : env.memalign_ok = false
  · rw [if_pos hm]
    exact ⟨_, rfl⟩
  · rw [if_neg hm]
    by_cases hs : R_FAILED env.socInit_result = true
    · rw [if_pos hs]
      exact ⟨_, rfl⟩
    · rw [if_neg hs]
      rcases hpath with h1 | h2 | ⟨hfuel, hN, hfo⟩
      · exact absurd h1 hm
      · exact absurd h2 hs
      · obtain ⟨⟨st, cres⟩, hrun⟩ :=
          curl_easy_perform_total fuel hfuel env.transfer_code env.chunks g.stream
            (by rw [hempty]; rfl) (by rw [hempty]; exact Nat.le_refl _)
            (by rw [hempty]; simpa [emptyBuffer] using hN)
        rw [hrun]
        dsimp only
        by_cases hc : cres = 0
        · rw [if_pos hc]
          by_cases hf : env.fopen_ok = true
          · rw [if_pos hf]
            exact ⟨_, rfl⟩
          · exfalso
            apply hf
            rcases curl_easy_perform_code fuel env.transfer_code _ _ _ _ hrun with h1 | h1
            · exact hfo (by omega)
            · omega
        · rw [if_neg hc]
          exact ⟨_, rfl⟩

/-- Claim C6. If the StreamBuffer is empty when `download` is called, it is empty
again whenever `download` returns, on every path; `download` does return on the
scratch-allocation and network-initialisation failure paths and, for a body of
at most `2 ^ 31` bytes, on the transfer paths (provided `fopen` yields a stream
when the transfer succeeded); so a second call in succession starts from
`written = 0`, `capacity = 0` and ends the same way. -/
theorem download_resets_stream (fuel : Nat) (env : DownloadEnv) (g : Globals)
    (hempty : g.stream = emptyBuffer) :
    (∀ g1, download fuel env g = .ok g1 → g1.stream = emptyBuffer) ∧
    (env.memalign_ok = false ∨ R_FAILED env.socInit_result = true ∨
        (33 ≤ fuel ∧ totalLen env.chunks ≤ 2 ^ 31 ∧
          (env.transfer_code = 0 → env.fopen_ok = true)) →
      ∃ g1, download fuel env g = .ok g1) ∧
    (∀ env2 g1 g2, download fuel env g = .ok g1 → download fuel env2 g1 = .ok g2 →
      g1.stream.result_written = 0 ∧ g1.stream.result_sz = 0 ∧
      g1.stream.result_buf.isNone = true ∧ g2.stream = emptyBuffer) := by
  have key : ∀ (e : DownloadEnv) (a b : Globals), a.stream = emptyBuffer →
      download fuel e a = .ok b → b.stream = emptyBuffer := by
    intro e a b ha hrun
    unfold download at hrun
    split at hrun
    · cases hrun
      exact ha
    · split at hrun
      · cases hrun
        exact ha
      · split at hrun
        · cases hrun
        · dsimp only at hrun
          split at hrun
          · split at hrun
            · cases hrun
              rfl
            · cases hrun
          · cases hrun
            rfl
  refine ⟨fun g1 h1 => key env g g1 hempty h1, download_returns fuel env g hempty, ?_⟩
  · intro env2 g1 g2 h1 h2
    have e1 := key env g g1 hempty h1
    have e2 := key env2 g1 g2 e1 h2
    rw [e1]
    exact ⟨rfl, rfl, rfl, e2⟩

/-- Witness of C6: a successful download of the two sample chunks. -/
theorem download_resets_stream_witness :
    initialGlobals.stream = emptyBuffer ∧
    ∃ g1, download 33 sampleDownload initialGlobals = .ok g1 ∧ g1.stream = emptyBuffer := by
  have h := download_resets_stream 33 sampleDownload initialGlobals rfl
  obtain ⟨g1, hg1⟩ := h.2.1 (Or.inr (Or.inr ⟨by decide, by
    show totalLen sampleChunks ≤ 2 ^ 31
    rw [sampleChunks_total]
    decide, fun _ => rfl⟩))
  exact ⟨rfl, g1, hg1, h.1 g1 hg1⟩

/-! ## The download trigger -/

/-- Claim C8, the code at the failing input. The transfer of three bytes succeeds,
`fopen` succeeds and `fwrite` is short (one byte reaches `/tmp.cia`): `download`
leaves the success code 0 in `result`, and the iteration of `qrHandler` goes on
to call `installCia`. -/
theorem download_short_write_reports_success :
    ∃ g1, download 33 shortWriteDownload initialGlobals = .ok g1 ∧
      g1.result = 0 ∧ R_SUCCEEDED g1.result = true ∧ g1.tmp_cia = some [1] ∧
      ∃ r, qrHandler 33 (decodeEnv appPayload shortWriteDownload sampleInstall) capturingWorld
          = .ok r ∧
        r.2.take 3 = [.setState .Downloading, .downloadCalled appPayload, .setState .Installing] ∧
        Action.removeCalled ∈ r.2 :=
  ⟨_, rfl, rfl, rfl, rfl, _, rfl, rfl, by decide⟩

/-- Every transfer that ends with `CURLE_OK` and finds `fopen` succeeding leaves
0 in `result`, whatever `fwrite` did. -/
theorem download_ignores_fwrite (fuel : Nat) (env : DownloadEnv) (g : Globals)
    (st : StreamBuffer)
    (hm : env.memalign_ok = true) (hs : R_FAILED env.socInit_result = false)
    (hrun : curl_easy_perform fuel env.transfer_code env.chunks g.stream = .ok (st, 0))
    (hf : env.fopen_ok = true) :
    ∃ g1, download fuel env g = .ok g1 ∧ g1.result = 0 := by
  unfold download
  rw [if_neg (by simp [hm]), if_neg (by simp [hs]), hrun]
  dsimp only
  rw [if_pos rfl, if_pos hf]
  exact ⟨_, rfl, rfl⟩

/-! ## A failed chunk during the install -/

/-- Claim C9, the code at the failing input. For a file of 8192 bytes whose first
chunk fails to be written, `installCia` still reads and writes the second chunk,
calls `AM_FinishCiaInstall` and closes the file, and `result` ends as 0. -/
theorem installCia_ignores_failed_write :
    installCia 3 failedWriteInstall =
      some (0, [.OpenFileDirectly, .GetCiaFileInfo, .GetTitleCount, .GetTitleList, .GetSize,
        .StartCiaInstall, .Read 0 4096 0, .Write 0 4096 (-1), .Read 4096 4096 0,
        .Write 4096 4096 0, .FinishCiaInstall, .Close]) := by
  decide

/-- Whatever `FSFILE_Read` and `FSFILE_Write` return, an install whose earlier
steps succeeded goes on to `AM_FinishCiaInstall`, and `result` is the code of
that call or of `FSFILE_Close`. -/
theorem installCia_finishes_regardless (fuel : Nat) (env : InstallEnv)
    (h1 : R_FAILED env.open_result = false) (h2 : R_FAILED env.info_result = false)
    (h3 : R_FAILED (deletePrevious env env.titleID).1 = false)
    (h4 : R_FAILED env.size_result = false) (h5 : R_FAILED env.start_result = false)
    (hfuel : env.size % U64_MOD / 4096 + 1 ≤ fuel) :
    ∃ calls, installCia fuel env
        = some (if R_FAILED env.finish_result = true then env.finish_result
                else env.close_result, calls) ∧
      Call.FinishCiaInstall ∈ calls := by
  have hops := copyLoop_spec (env.size % U64_MOD) (Nat.mod_lt _ (by decide)) fuel
    (env.size % U64_MOD) 0x1000 (Nat.le_refl _) (Or.inr rfl) (by omega)
  unfold installCia
  rw [if_neg (by simp [h1]), if_neg (by simp [h2])]
  dsimp only
  rw [if_neg (by simp [h3]), if_neg (by simp [h4]), if_neg (by simp [h5]), hops]
  dsimp only
  by_cases hf : R_FAILED env.finish_result = true
  · rw [if_pos hf, if_pos hf]
    exact ⟨_, rfl, by simp⟩
  · rw [if_neg hf, if_neg hf]
    exact ⟨_, rfl, by simp⟩

/-! ## Failure to create the capture thread -/

/-- With no capture thread nothing stores `finished`: the wait of `qrExit` does
not end, however much fuel it is given. -/
theorem waitFinished_no_worker (fuel : Nat) : ∀ w : World,
    w.worker = none → w.data.finished = false → waitFinished fuel w = none := by
  induction fuel with
  | zero =>
    intro w _ hf
    simp [waitFinished, hf]
  | succ n ih =>
    intro w hw hf
    have hs : duringSleep w = w := by
      unfold duringSleep
      rw [hw]
    rw [waitFinished, if_neg (by simp [hf]), hs, ih w hw hf]

/-- With a capture thread that needs `k` sleeps, the wait of `qrExit` ends after
`k + 1` sleeps. -/
theorem waitFinished_worker (k : Nat) : ∀ (w : World) (fuel : Nat),
    w.worker = some k → w.cancel_signaled = true → w.data.finished = false → k + 1 ≤ fuel →
    ∃ w1, waitFinished fuel w = some (w1, k + 1) ∧ w1.data.finished = true := by
  induction k with
  | zero =>
    intro w fuel hw hc hf hfuel
    obtain ⟨n, rfl⟩ : ∃ n, fuel = n + 1 := ⟨fuel - 1, by omega⟩
    have hs : duringSleep w
        = { w with data := { w.data with finished := true }, worker := none } := by
      unfold duringSleep
      rw [hw]
      simp [hc]
    refine ⟨{ w with data := { w.data with finished := true }, worker := none }, ?_, rfl⟩
    rw [waitFinished, if_neg (by simp [hf]), hs]
    cases n <;> simp [waitFinished]
  | succ k ih =>
    intro w fuel hw hc hf hfuel
    obtain ⟨n, rfl⟩ : ∃ n, fuel = n + 1 := ⟨fuel - 1, by omega⟩
    have hs : duringSleep w = { w with worker := some k } := by
      unfold duringSleep
      rw [hw]
      simp [hc]
    obtain ⟨w1, hrun, hfin⟩ := ih { w with worker := some k } n rfl hc hf (by omega)
    refine ⟨w1, ?_, hfin⟩
    rw [waitFinished, if_neg (by simp [hf]), hs, hrun]

/-- When `threadCreate` fails before any capture thread exists, the iteration of
`qrHandler` does not return. -/
theorem qrHandler_threadCreate_failure (fuel : Nat) (env : HandlerEnv) (w : World)
    (hstart : env.start_pressed = false) (hthread : env.threadCreate_ok = false)
    (hcap : w.data.capturing = false) (hfin : w.data.finished = false)
    (hworker : w.worker = none) :
    qrHandler fuel env w = .error .outOfFuel := by
  unfold qrHandler
  rw [if_neg (by simp [hstart]), if_pos ⟨hcap, hthread⟩]
  unfold qrExit
  rw [waitFinished_no_worker fuel
    { ({ w with cancel_signaled := false } : World) with cancel_signaled := true } hworker hfin]

/-- Claim C10, the code at the failing input. In the session as `qrScanner` sets
it up (`capturing = false`, `finished = false`, no capture thread), an iteration
in which `threadCreate` fails never returns: after signalling cancel, `qrExit`
waits for a `finished` flag that only the capture thread would set. -/
theorem qrHandler_threadCreate_failure_hangs :
    initialWorld.data.capturing = false ∧ initialWorld.data.finished = false ∧
    threadFailureEnv.threadCreate_ok = false ∧
    ¬ ∃ fuel r, qrHandler fuel threadFailureEnv initialWorld = .ok r := by
  refine ⟨rfl, rfl, rfl, ?_⟩
  rintro ⟨fuel, r, hr⟩
  rw [qrHandler_threadCreate_failure fuel threadFailureEnv initialWorld rfl rfl rfl rfl rfl] at hr
  cases hr

/-- With a capture thread running, `qrExit` returns once the thread has stored
`finished`. -/
theorem qrExit_returns (k fuel : Nat) (w : World) (hw : w.worker = some k)
    (hf : w.data.finished = false) (hfuel : k + 1 ≤ fuel) :
    ∃ r, qrExit fuel w = .ok r ∧ r.1.data.finished = true ∧ r.1.data.capturing = false := by
  obtain ⟨w1, hrun, hfin⟩ :=
    waitFinished_worker k { w with cancel_signaled := true } fuel hw rfl hf hfuel
  unfold qrExit
  rw [hrun]
  exact ⟨_, rfl, hfin, rfl⟩

/-! ## The shared frame -/

theorem SinkInv_init (buffer image tex : Nat → Nat) : SinkInv (initSink buffer image tex) where
  mutex_cam := by simp [initSink]
  mutex_qr := by simp [initSink]
  copying := by intro i h; simp [initSink] at h
  stable := fun _ => ⟨zeroFrame, Or.inl rfl, fun _ _ => rfl⟩
  converting := by intro k h; simp [initSink] at h
  snaps := by intro img h; simp [initSink] at h

theorem Complete_mono (s s1 : FrameSink) (F : Nat → Nat)
    (h : ∀ G, G ∈ s.completed → G ∈ s1.completed) (hF : Complete s F) : Complete s1 F := by
  rcases hF with h0 | hm
  · exact Or.inl h0
  · exact Or.inr (h F hm)

theorem imageIndex_ne (j k : Nat) (hj : j < FRAME_PIXELS) (hk : k < FRAME_PIXELS)
    (hjk : j ≠ k) :
    imageIndex 400 (j / 240) (j % 240) ≠ imageIndex 400 (k / 240) (k % 240) := by
  simp only [imageIndex]
  simp only [FRAME_PIXELS] at hj hk
  omega

theorem SinkInv_step (m : Move) (s s1 : FrameSink) (hinv : SinkInv s)
    (hstep : step m s = some s1) : SinkInv s1 := by
  obtain ⟨hmc, hmq, hcopy, hstable, hconv, hsnaps⟩ := hinv
  cases m with
  | camLock frame =>
    simp only [step] at hstep
    split at hstep
    · rename_i hc
      cases hstep
      have hq : s.qr_pc = none := by
        cases hqp : s.qr_pc with
        | none => rfl
        | some k =>
          have := hmq.mp (by rw [hqp]; rfl)
          rw [hc.2] at this
          cases this
      refine ⟨by simp, by simp [hq], ?_, by simp, ?_, ?_⟩
      · intro i hi
        simp only [Option.some.injEq] at hi
        subst hi
        exact ⟨Nat.zero_le _, fun j hj => absurd hj (Nat.not_lt_zero _)⟩
      · intro k hk
        simp only at hk
        rw [hq] at hk
        cases hk
      · intro img himg
        obtain ⟨F, hF, hI⟩ := hsnaps img himg
        exact ⟨F, hF, hI⟩
    · cases hstep
  | camCopy =>
    simp only [step] at hstep
    split at hstep
    · rename_i i hi
      split at hstep
      · rename_i hlt
        cases hstep
        have hm : s.mutex = some .cam := hmc.mp (by rw [hi]; rfl)
        have hq : s.qr_pc = none := by
          cases hqp : s.qr_pc with
          | none => rfl
          | some k =>
            have := hmq.mp (by rw [hqp]; rfl)
            rw [hm] at this
            cases this
        refine ⟨by simp [hm], by simp [hq, hm], ?_, by simp, ?_, ?_⟩
        · intro i1 hi1
          simp only [Option.some.injEq] at hi1
          subst hi1
          refine ⟨hlt, fun j hj => ?_⟩
          simp only
          by_cases hji : j = i
          · rw [if_pos hji, hji]
          · rw [if_neg hji]
            exact (hcopy i hi).2 j (by omega)
        · intro k hk
          simp only at hk
          rw [hq] at hk
          cases hk
        · intro img himg
          obtain ⟨F, hF, hI⟩ := hsnaps img himg
          exact ⟨F, hF, hI⟩
      · cases hstep
    · cases hstep
  | camRelease =>
    simp only [step] at hstep
    split at hstep
    · rename_i hc
      cases hstep
      have hm : s.mutex = some .cam := hmc.mp (by rw [hc]; rfl)
      have hq : s.qr_pc = none := by
        cases hqp : s.qr_pc with
        | none => rfl
        | some k =>
          have := hmq.mp (by rw [hqp]; rfl)
          rw [hm] at this
          cases this
      refine ⟨by simp, by simp [hq], by simp, ?_, ?_, ?_⟩
      · intro _
        exact ⟨s.buffer, Or.inr (List.mem_cons_self _ _), fun j hj => (hcopy _ hc).2 j hj⟩
      · intro k hk
        simp only at hk
        rw [hq] at hk
        cases hk
      · intro img himg
        obtain ⟨F, hF, hI⟩ := hsnaps img himg
        exact ⟨F, Complete_mono s _ F (fun G hG => List.mem_cons_of_mem _ hG) hF, hI⟩
    · cases hstep
  | qrLock =>
    simp only [step] at hstep
    split at hstep
    · rename_i hc
      cases hstep
      have hcam : s.cam_pc = none := by
        cases hcp : s.cam_pc with
        | none => rfl
        | some k =>
          have := hmc.mp (by rw [hcp]; rfl)
          rw [hc.2] at this
          cases this
      refine ⟨by simp [hcam], by simp, ?_, ?_, ?_, ?_⟩
      · intro i hi
        simp only at hi
        rw [hcam] at hi
        cases hi
      · intro _
        obtain ⟨F, hF, hB⟩ := hstable hcam
        exact ⟨F, hF, hB⟩
      · intro k hk
        simp only [Option.some.injEq] at hk
        subst hk
        exact ⟨Nat.zero_le _, fun j hj => absurd hj (Nat.not_lt_zero _)⟩
      · intro img himg
        obtain ⟨F, hF, hI⟩ := hsnaps img himg
        exact ⟨F, hF, hI⟩
    · cases hstep
  | qrRead =>
    simp only [step] at hstep
    split at hstep
    · rename_i k hk
      split at hstep
      · rename_i hlt
        cases hstep
        refine ⟨hmc, by simpa [hk] using hmq, hcopy, ?_, ?_, ?_⟩
        · intro hcam
          obtain ⟨F, hF, hB⟩ := hstable hcam
          exact ⟨F, hF, hB⟩
        · intro k1 hk1
          simp only [Option.some.injEq] at hk1
          subst hk1
          refine ⟨hlt, fun j hj => ?_⟩
          simp only [convertPixel]
          by_cases hjk : j = k
          · subst hjk
            rw [if_pos rfl]
          · rw [if_neg (imageIndex_ne j k (by omega) hlt hjk)]
            exact (hconv k hk).2 j (by omega)
        · intro img himg
          obtain ⟨F, hF, hI⟩ := hsnaps img himg
          exact ⟨F, hF, hI⟩
      · cases hstep
    · cases hstep
  | qrRelease =>
    simp only [step] at hstep
    split at hstep
    · rename_i hc
      cases hstep
      have hm : s.mutex = some .qr := hmq.mp (by rw [hc]; rfl)
      have hcam : s.cam_pc = none := by
        cases hcp : s.cam_pc with
        | none => rfl
        | some k =>
          have := hmc.mp (by rw [hcp]; rfl)
          rw [hm] at this
          cases this
      obtain ⟨F, hF, hB⟩ := hstable hcam
      refine ⟨by simp [hcam], by simp, ?_, ?_, by simp, ?_⟩
      · intro i hi
        simp only at hi
        rw [hcam] at hi
        cases hi
      · intro _
        exact ⟨F, hF, hB⟩
      · intro img himg
        simp only [List.mem_cons] at himg
        rcases himg with rfl | hold
        · refine ⟨F, hF, ?_⟩
          intro x y hx hy
          have h1 := (hconv _ hc).2 (x * 240 + y) (by simp only [FRAME_PIXELS]; omega)
          have hd : (x * 240 + y) / 240 = x := by omega
          have hr : (x * 240 + y) % 240 = y := by omega
          rw [hd, hr] at h1
          rw [h1, hB (cameraIndex x y) (by simp only [cameraIndex, FRAME_PIXELS]; omega)]
        · obtain ⟨G, hG, hI⟩ := hsnaps img hold
          exact ⟨G, hG, hI⟩
    · cases hstep
  | uiRead =>
    simp only [step] at hstep
    split at hstep
    · cases hstep
      exact ⟨hmc, hmq, hcopy, hstable, hconv, hsnaps⟩
    · cases hstep
  | uiDraw =>
    simp only [step] at hstep
    split at hstep
    · cases hstep
      exact ⟨hmc, hmq, hcopy, hstable, hconv, hsnaps⟩
    · cases hstep

theorem SinkInv_run (ms : List Move) : ∀ (s s1 : FrameSink), SinkInv s →
    run ms s = some s1 → SinkInv s1 := by
  induction ms with
  | nil =>
    intro s s1 hinv hrun
    simp only [run, Option.some.injEq] at hrun
    subst hrun
    exact hinv
  | cons m ms ih =>
    intro s s1 hinv hrun
    simp only [run] at hrun
    split at hrun
    · cases hrun
    · rename_i s2 hs2
      exact ih s2 s1 (SinkInv_step m s s2 hinv hs2) hrun

theorem run_append (a b : List Move) : ∀ s : FrameSink,
    run (a ++ b) s = (run a s).bind (run b) := by
  induction a with
  | nil => intro s; rfl
  | cons m ms ih =>
    intro s
    simp only [List.cons_append, run]
    cases step m s with
    | none => rfl
    | some s1 => exact ih s1

theorem run_cons_some (m : Move) (ms : List Move) (s s1 : FrameSink)
    (h : step m s = some s1) : run (m :: ms) s = run ms s1 := by
  simp only [run, h]

theorem run_cons (m : Move) (ms : List Move) (s s1 s2 : FrameSink)
    (h : step m s = some s1) (h2 : run ms s1 = some s2) : run (m :: ms) s = some s2 := by
  rw [run_cons_some m ms s s1 h, h2]

theorem run_trans (a b : List Move) (s s1 s2 : FrameSink)
    (h1 : run a s = some s1) (h2 : run b s1 = some s2) : run (a ++ b) s = some s2 := by
  rw [run_append, h1]
  exact h2

/-- The `memcpy` of `camThread` run to the end without interruption. -/
theorem run_camCopy (m : Nat) : ∀ (s : FrameSink) (i : Nat), s.cam_pc = some i →
    i + m ≤ FRAME_PIXELS →
    run (List.replicate m Move.camCopy) s =
      some { s with
        camera_buffer := fun j => if i ≤ j ∧ j < i + m then s.buffer j else s.camera_buffer j,
        cam_pc := some (i + m) } := by
  induction m with
  | zero =>
    intro s i hi _
    obtain ⟨cb, mu, bu, cp, co, im, qp, sn, tx, up, dr⟩ := s
    simp only at hi
    subst hi
    simp only [List.replicate, run, Nat.add_zero, Option.some.injEq, FrameSink.mk.injEq,
      and_true, true_and]
    funext j
    rw [if_neg (by omega)]
  | succ m ih =>
    intro s i hi hle
    obtain ⟨cb, mu, bu, cp, co, im, qp, sn, tx, up, dr⟩ := s
    simp only at hi
    subst hi
    have hlt : i < FRAME_PIXELS := by omega
    simp only [List.replicate, run, step, if_pos hlt]
    rw [ih _ (i + 1) rfl (by omega)]
    simp only [Option.some.injEq, FrameSink.mk.injEq, and_true, true_and]
    refine ⟨?_, by omega⟩
    funext j
    by_cases h1 : i + 1 ≤ j ∧ j < i + 1 + m
    · rw [if_pos h1, if_pos ⟨by omega, by omega⟩]
    · rw [if_neg h1]
      by_cases h2 : j = i
      · rw [if_pos h2, if_pos ⟨by omega, by omega⟩, h2]
      · rw [if_neg h2, if_neg (by omega)]

/-- The conversion loops of `qrHandler` run to the end without interruption. -/
theorem run_qrRead (m : Nat) : ∀ (s : FrameSink) (k : Nat), s.qr_pc = some k →
    k + m ≤ FRAME_PIXELS →
    ∃ img, run (List.replicate m Move.qrRead) s =
      some { s with image := img, qr_pc := some (k + m) } := by
  induction m with
  | zero =>
    intro s k hk _
    obtain ⟨cb, mu, bu, cp, co, im, qp, sn, tx, up, dr⟩ := s
    simp only at hk
    subst hk
    exact ⟨im, rfl⟩
  | succ m ih =>
    intro s k hk hle
    obtain ⟨cb, mu, bu, cp, co, im, qp, sn, tx, up, dr⟩ := s
    simp only at hk
    subst hk
    have hlt : k < FRAME_PIXELS := by omega
    obtain ⟨img, himg⟩ := ih
      { camera_buffer := cb, mutex := mu, buffer := bu, cam_pc := cp, completed := co,
        image := convertPixel cb 400 (k / 240) (k % 240) im, qr_pc := some (k + 1),
        snapshots := sn, tex := tx, ui_pc := up, drawn := dr } (k + 1) rfl (by omega)
    refine ⟨img, ?_⟩
    simp only [List.replicate, run, step, if_pos hlt]
    rw [himg]
    simp only [Option.some.injEq, FrameSink.mk.injEq, and_true, true_and]
    omega

/-- The texture loops of `uiThread`, `m + 1` iterations from pixel `k`: the last
element written holds what `camera_buffer` held. -/
theorem run_uiRead (m : Nat) : ∀ (s : FrameSink) (k : Nat), s.ui_pc = k →
    k + m + 1 ≤ FRAME_PIXELS →
    ∃ t, run (List.replicate (m + 1) Move.uiRead) s =
        some { s with tex := t, ui_pc := k + m + 1 } ∧
      t (texIndex ((k + m) / 240) ((k + m) % 240))
        = s.camera_buffer (cameraIndex ((k + m) / 240) ((k + m) % 240)) := by
  induction m with
  | zero =>
    intro s k hk hle
    obtain ⟨cb, mu, bu, cp, co, im, qp, sn, tx, up, dr⟩ := s
    simp only at hk
    subst hk
    have hlt : up < FRAME_PIXELS := by omega
    refine ⟨fun d => if d = texIndex (up / 240) (up % 240) then
        cb (cameraIndex (up / 240) (up % 240)) else tx d, ?_, ?_⟩
    · simp only [List.replicate, run, step, if_pos hlt]
    · simp
  | succ m ih =>
    intro s k hk hle
    obtain ⟨cb, mu, bu, cp, co, im, qp, sn, tx, up, dr⟩ := s
    simp only at hk
    subst hk
    have hlt : up < FRAME_PIXELS := by omega
    obtain ⟨t, ht, hlast⟩ := ih
      { camera_buffer := cb, mutex := mu, buffer := bu, cam_pc := cp, completed := co,
        image := im, qr_pc := qp, snapshots := sn,
        tex := fun d => if d = texIndex (up / 240) (up % 240) then
          cb (cameraIndex (up / 240) (up % 240)) else tx d,
        ui_pc := up + 1, drawn := dr } (up + 1) rfl (by omega)
    have he : up + 1 + m = up + (m + 1) := by omega
    rw [he] at hlast ht
    refine ⟨t, ?_, hlast⟩
    rw [List.replicate_succ, run_cons_some _ _ _ _ (by simp only [step, if_pos hlt]; rfl), ht]

/-- Claim C5, as amended. In every interleaving of the moves of `camThread`,
`qrHandler` and `uiThread`, the writer and the decode loop are never inside
their critical sections together, and every image `qrHandler` hands to the
decoder is the conversion of one complete frame: of the zeroed buffer or of one
frame that `camThread` copied as a whole. -/
theorem qrHandler_snapshot_complete (buffer image tex : Nat → Nat) (ms : List Move)
    (s : FrameSink) (hrun : run ms (initSink buffer image tex) = some s) :
    ¬ (s.cam_pc.isSome = true ∧ s.qr_pc.isSome = true) ∧
    ∀ img, img ∈ s.snapshots → ∃ F, Complete s F ∧ ImageOf img F := by
  have hinv := SinkInv_run ms _ s (SinkInv_init buffer image tex) hrun
  refine ⟨?_, hinv.snaps⟩
  rintro ⟨hc, hq⟩
  have h1 := hinv.mutex_cam.mp hc
  have h2 := hinv.mutex_qr.mp hq
  rw [h1] at h2
  cases h2

theorem run_writeFrame (s : FrameSink) (frame : Nat → Nat) (hc : s.cam_pc = none)
    (hm : s.mutex = none) :
    run (Move.camLock frame :: List.replicate FRAME_PIXELS Move.camCopy) s =
      some { s with
        camera_buffer := fun j =>
          if 0 ≤ j ∧ j < 0 + FRAME_PIXELS then frame j else s.camera_buffer j,
        mutex := some .cam, buffer := frame, cam_pc := some (0 + FRAME_PIXELS) } := by
  have h0 : step (Move.camLock frame) s
      = some { s with mutex := some .cam, cam_pc := some 0, buffer := frame } := by
    simp only [step, hc, hm, and_self, if_true]
  exact run_cons _ _ s _ _ h0 (run_camCopy FRAME_PIXELS _ 0 rfl (by omega))

theorem run_decodeSchedule :
    ∃ s, run decodeSchedule (initSink zeroFrame zeroFrame zeroFrame) = some s ∧
      s.snapshots.length = 1 := by
  obtain ⟨img, himg⟩ := run_qrRead FRAME_PIXELS
      { camera_buffer := fun j =>
              if 0 ≤ j ∧ j < 0 + FRAME_PIXELS then onesFrame j else zeroFrame j,
        mutex := some .qr, buffer := onesFrame, cam_pc := none, completed := [onesFrame],
        image := zeroFrame, qr_pc := some 0, snapshots := [], tex := zeroFrame, ui_pc := 0,
        drawn := [] } 0 rfl (by omega)
  have h1 : run (Move.camLock onesFrame :: List.replicate FRAME_PIXELS Move.camCopy)
      (initSink zeroFrame zeroFrame zeroFrame) = some
      { camera_buffer := fun j =>
              if 0 ≤ j ∧ j < 0 + FRAME_PIXELS then onesFrame j else zeroFrame j,
        mutex := some .cam, buffer := onesFrame, cam_pc := some (0 + FRAME_PIXELS), completed := [],
        image := zeroFrame, qr_pc := none, snapshots := [], tex := zeroFrame, ui_pc := 0,
        drawn := [] } :=
    run_writeFrame (initSink zeroFrame zeroFrame zeroFrame) onesFrame rfl rfl
  have h2a : step Move.camRelease
      { camera_buffer := fun j =>
              if 0 ≤ j ∧ j < 0 + FRAME_PIXELS then onesFrame j else zeroFrame j,
        mutex := some .cam, buffer := onesFrame, cam_pc := some (0 + FRAME_PIXELS), completed := [],
        image := zeroFrame, qr_pc := none, snapshots := [], tex := zeroFrame, ui_pc := 0,
        drawn := [] } = some
      { camera_buffer := fun j =>
              if 0 ≤ j ∧ j < 0 + FRAME_PIXELS then onesFrame j else zeroFrame j,
        mutex := none, buffer := onesFrame, cam_pc := none, completed := [onesFrame],
        image := zeroFrame, qr_pc := none, snapshots := [], tex := zeroFrame, ui_pc := 0,
        drawn := [] } := by
    simp only [step, Nat.zero_add, if_true]
  have h2b : step Move.qrLock
      { camera_buffer := fun j =>
              if 0 ≤ j ∧ j < 0 + FRAME_PIXELS then onesFrame j else zeroFrame j,
        mutex := none, buffer := onesFrame, cam_pc := none, completed := [onesFrame],
        image := zeroFrame, qr_pc := none, snapshots := [], tex := zeroFrame, ui_pc := 0,
        drawn := [] } = some
      { camera_buffer := fun j =>
              if 0 ≤ j ∧ j < 0 + FRAME_PIXELS then onesFrame j else zeroFrame j,
        mutex := some .qr, buffer := onesFrame, cam_pc := none, completed := [onesFrame],
        image := zeroFrame, qr_pc := some 0, snapshots := [], tex := zeroFrame, ui_pc := 0,
        drawn := [] } := by
    simp only [step, and_self, if_true]
  have h2 : run (Move.camRelease :: Move.qrLock :: List.replicate FRAME_PIXELS Move.qrRead)
      { camera_buffer := fun j =>
              if 0 ≤ j ∧ j < 0 + FRAME_PIXELS then onesFrame j else zeroFrame j,
        mutex := some .cam, buffer := onesFrame, cam_pc := some (0 + FRAME_PIXELS), completed := [],
        image := zeroFrame, qr_pc := none, snapshots := [], tex := zeroFrame, ui_pc := 0,
        drawn := [] } = some
      { camera_buffer := fun j =>
              if 0 ≤ j ∧ j < 0 + FRAME_PIXELS then onesFrame j else zeroFrame j,
        mutex := some .qr, buffer := onesFrame, cam_pc := none, completed := [onesFrame],
        image := img, qr_pc := some (0 + FRAME_PIXELS), snapshots := [], tex := zeroFrame, ui_pc := 0,
        drawn := [] } :=
    run_cons _ _ _ _ _ h2a (run_cons _ _ _ _ _ h2b himg)
  have h3 : run [Move.qrRelease]
      { camera_buffer := fun j =>
              if 0 ≤ j ∧ j < 0 + FRAME_PIXELS then onesFrame j else zeroFrame j,
        mutex := some .qr, buffer := onesFrame, cam_pc := none, completed := [onesFrame],
        image := img, qr_pc := some (0 + FRAME_PIXELS), snapshots := [], tex := zeroFrame, ui_pc := 0,
        drawn := [] } = some
      { camera_buffer := fun j =>
              if 0 ≤ j ∧ j < 0 + FRAME_PIXELS then onesFrame j else zeroFrame j,
        mutex := none, buffer := onesFrame, cam_pc := none, completed := [onesFrame],
        image := img, qr_pc := none, snapshots := [img], tex := zeroFrame, ui_pc := 0,
        drawn := [] } := by
    simp only [run, step, Nat.zero_add, if_true]
  exact ⟨_, run_trans _ _ _ _ _ (run_trans _ _ _ _ _ h1 h2) h3, rfl⟩

/-- Witness of C5 as amended: a frame of ones is written and then converted. -/
theorem qrHandler_snapshot_complete_witness :
    ∃ s, run decodeSchedule (initSink zeroFrame zeroFrame zeroFrame) = some s ∧
      s.snapshots.length = 1 ∧
      ¬ (s.cam_pc.isSome = true ∧ s.qr_pc.isSome = true) ∧
      ∀ img, img ∈ s.snapshots → ∃ F, Complete s F ∧ ImageOf img F := by
  obtain ⟨s, hrun, hlen⟩ := run_decodeSchedule
  exact ⟨s, hrun, hlen, qrHandler_snapshot_complete zeroFrame zeroFrame zeroFrame decodeSchedule s
    hrun⟩

/-- Counterexample to C5 as stated: `uiThread` reads `camera_buffer` without
taking the mutex.  In this interleaving it copies all pixels but the last from
the zeroed buffer, `camThread` then writes a whole frame of ones under the
mutex, and `uiThread` copies the last pixel: the texture it draws is neither the
zeroed buffer nor the one frame that was written. -/
theorem uiThread_tearing_counterexample :
    ∃ s t, run tearingSchedule (initSink zeroFrame zeroFrame zeroFrame) = some s ∧
      s.drawn = [t] ∧ s.completed = [onesFrame] ∧
      t (texIndex 399 238) = 0 ∧ t (texIndex 399 239) = 1 ∧
      ¬ TextureOf t zeroFrame ∧ ¬ TextureOf t onesFrame := by
  obtain ⟨t1, hrun1, hlast⟩ :=
    run_uiRead (FRAME_PIXELS - 2) (initSink zeroFrame zeroFrame zeroFrame) 0 rfl (by decide)
  have hlast1 : t1 (texIndex 399 238) = 0 := hlast
  have h1 : run (List.replicate (FRAME_PIXELS - 1) Move.uiRead)
      (initSink zeroFrame zeroFrame zeroFrame) = some
      { camera_buffer := zeroFrame,
        mutex := none, buffer := zeroFrame, cam_pc := none, completed := [],
        image := zeroFrame, qr_pc := none, snapshots := [], tex := t1, ui_pc := 95999,
        drawn := [] } := hrun1
  have h2 : run (Move.camLock onesFrame :: List.replicate FRAME_PIXELS Move.camCopy)
      { camera_buffer := zeroFrame,
        mutex := none, buffer := zeroFrame, cam_pc := none, completed := [],
        image := zeroFrame, qr_pc := none, snapshots := [], tex := t1, ui_pc := 95999,
        drawn := [] } = some
      { camera_buffer := fun j =>
              if 0 ≤ j ∧ j < 0 + FRAME_PIXELS then onesFrame j else zeroFrame j,
        mutex := some .cam, buffer := onesFrame, cam_pc := some (0 + FRAME_PIXELS), completed := [],
        image := zeroFrame, qr_pc := none, snapshots := [], tex := t1, ui_pc := 95999,
        drawn := [] } :=
    run_writeFrame _ onesFrame rfl rfl
  have h3a : step Move.camRelease
      { camera_buffer := fun j =>
              if 0 ≤ j ∧ j < 0 + FRAME_PIXELS then onesFrame j else zeroFrame j,
        mutex := some .cam, buffer := onesFrame, cam_pc := some (0 + FRAME_PIXELS), completed := [],
        image := zeroFrame, qr_pc := none, snapshots := [], tex := t1, ui_pc := 95999,
        drawn := [] } = some
      { camera_buffer := fun j =>
              if 0 ≤ j ∧ j < 0 + FRAME_PIXELS then onesFrame j else zeroFrame j,
        mutex := none, buffer := onesFrame, cam_pc := none, completed := [onesFrame],
        image := zeroFrame, qr_pc := none, snapshots := [], tex := t1, ui_pc := 95999,
        drawn := [] } := by
    simp only [step, Nat.zero_add, if_true]
  have h3 : ∃ t4, t4 (texIndex 399 238) = 0 ∧ t4 (texIndex 399 239) = 1 ∧
      run [Move.camRelease, Move.uiRead, Move.uiDraw]
      { camera_buffer := fun j =>
              if 0 ≤ j ∧ j < 0 + FRAME_PIXELS then onesFrame j else zeroFrame j,
        mutex := some .cam, buffer := onesFrame, cam_pc := some (0 + FRAME_PIXELS), completed := [],
        image := zeroFrame, qr_pc := none, snapshots := [], tex := t1, ui_pc := 95999,
        drawn := [] } = some
      { camera_buffer := fun j =>
              if 0 ≤ j ∧ j < 0 + FRAME_PIXELS then onesFrame j else zeroFrame j,
        mutex := none, buffer := onesFrame, cam_pc := none, completed := [onesFrame],
        image := zeroFrame, qr_pc := none, snapshots := [], tex := t4, ui_pc := 0,
        drawn := [t4] } := by
    refine ⟨fun d => if d = texIndex (95999 / 240) (95999 % 240) then
          (fun j =>
              if 0 ≤ j ∧ j < 0 + FRAME_PIXELS then onesFrame j else zeroFrame j)
                (cameraIndex (95999 / 240) (95999 % 240))
              else t1 d, ?_, ?_, ?_⟩
    · show (if texIndex 399 238 = texIndex (95999 / 240) (95999 % 240) then _
        else t1 (texIndex 399 238)) = 0
      rw [if_neg (by decide)]
      exact hlast1
    · show (if texIndex 399 239 = texIndex (95999 / 240) (95999 % 240) then
          (fun j =>
              if 0 ≤ j ∧ j < 0 + FRAME_PIXELS then onesFrame j else zeroFrame j)
            (cameraIndex (95999 / 240) (95999 % 240))
        else t1 (texIndex 399 239)) = 1
      rw [if_pos (by decide)]
      decide
    · refine run_cons _ _ _ _ _ h3a (run_cons _ _ _
        { camera_buffer := fun j =>
              if 0 ≤ j ∧ j < 0 + FRAME_PIXELS then onesFrame j else zeroFrame j,
            mutex := none, buffer := onesFrame, cam_pc := none, completed := [onesFrame],
            image := zeroFrame, qr_pc := none, snapshots := [], tex := (fun d =>
              if d = texIndex (95999 / 240) (95999 % 240) then
              (fun j =>
              if 0 ≤ j ∧ j < 0 + FRAME_PIXELS then onesFrame j else zeroFrame j)
                (cameraIndex (95999 / 240) (95999 % 240))
              else t1 d), ui_pc := 95999 + 1,
            drawn := [] } _ ?_ ?_)
      · have hlt : 95999 < FRAME_PIXELS := by decide
        simp only [step, if_pos hlt]
      · have heq : 95999 + 1 = FRAME_PIXELS := by decide
        simp only [run, step, if_pos heq]
  obtain ⟨t4, h238, h239, hrun3⟩ := h3
  refine ⟨_, t4, run_trans _ _ _ _ _ (run_trans _ _ _ _ _ h1 h2) hrun3, rfl, rfl, h238, h239,
    ?_, ?_⟩
  · intro hT
    have := hT 399 239 (by decide) (by decide)
    rw [h239] at this
    exact absurd this (by decide)
  · intro hT
    have := hT 399 238 (by decide) (by decide)
    rw [h238] at this
    exact absurd this (by decide)

end QRaken
